import Mathlib

/-!
# System monitor: the metrics sampling core

A shallow embedding of the four sampling routines of `system_monitor.cpp`
(`updateCPUUsage`, `updateMemoryUsage`, `updateDiskUsage`, `updateGPUInfo`)
together with the part of the C++ stream library they rely on.

Conventions of the embedding.

* Text is a `List Char`, one `Char` for each `char` of a C++ string; the classes of
  characters are those of the C locale.
* `unsigned long long` and `unsigned long` (LP64 Linux) are natural numbers
  reduced modulo `2 ^ 64` at every arithmetic operation.
* A `double` is a rational number or one of the IEEE special values, which are
  produced where the source produces them, at a division by zero.  The formulas
  of the routines are given in exact arithmetic, with no rounding.  The CPU
  usage is given a second time as binary64 computes it (`cpuUsageDouble`): every
  conversion and every operation is rounded to nearest, ties to even, on a
  significand of 53 bits, as on x86-64, where an expression of type `double` is
  evaluated in that type.
* The output of the GPU query is read as the source reads it, in pieces of at
  most 127 characters that are appended as C strings: what follows a NUL
  character in a piece is lost.
* A label of the window is the value last written to it by `setText`; the
  two-decimal rendering of a number is not modelled.
* Local variables that the source leaves uninitialised are parameters.
-/

namespace SysMon

/-! ## Machine integers -/

/-- Number of values of a 64-bit unsigned integer. -/
def U64 : Nat := 2 ^ 64

/-- Largest 64-bit unsigned integer. -/
def maxU64 : Nat := 2 ^ 64 - 1

/-- Unsigned 64-bit subtraction: the difference wraps around below zero. -/
def subU64 (a b : Nat) : Nat := (((a : Int) - (b : Int)) % (U64 : Int)).toNat

/-- Unsigned 64-bit multiplication. -/
def mulU64 (a b : Nat) : Nat := (a * b) % U64

/-! ## Doubles -/

/-- Value of a `double`: an exact finite value or one of the IEEE special values. -/
inductive Dbl where
  | fin (q : ℚ)
  | nan
  | posInf
  | negInf
  deriving DecidableEq

/-- Division `a / b` of two finite doubles whose divisor is not negative
(every divisor of the program is converted from an unsigned integer, so a zero
divisor is `+0.0`): `0/0` is NaN and `x/0` is the infinity of the sign of `x`. -/
def Dbl.div (a b : ℚ) : Dbl :=
  if b = 0 then
    if a = 0 then Dbl.nan else if 0 < a then Dbl.posInf else Dbl.negInf
  else Dbl.fin (a / b)

/-- Nearest integer to `x`, a tie going to the even neighbour. -/
def roundHalfEven (x : ℚ) : ℤ :=
  if x - ⌊x⌋ < 1 / 2 then ⌊x⌋
  else if 1 / 2 < x - ⌊x⌋ then ⌊x⌋ + 1
  else if ⌊x⌋ % 2 = 0 then ⌊x⌋ else ⌊x⌋ + 1

/-- Rounding of an exact value to binary64 in the default mode, to nearest with ties to
even: with `e` the binary exponent of `q`, the value is scaled by `2 ^ (52 - e)` to a
significand between `2 ^ 52` and `2 ^ 53`, which is rounded to an integer.  The range of
the exponent is not bounded: a value that the CPU computation rounds is zero or has a
magnitude between `2 ^ (-58)` and `2 ^ 71`, where every double is normal. -/
def roundDouble (q : ℚ) : ℚ :=
  if q = 0 then 0
  else roundHalfEven (q / (2 : ℚ) ^ (Int.log 2 |q| - 52)) * (2 : ℚ) ^ (Int.log 2 |q| - 52)

/-- Rounding of the result of an operation to binary64; a special value stays. -/
def Dbl.round : Dbl → Dbl
  | Dbl.fin q => Dbl.fin (roundDouble q)
  | d => d

/-! ## Input streams -/

/-- Input stream (`std::istringstream`, `std::ifstream`): the characters not
yet read and the two state bits the program depends on. -/
structure IStream where
  buf : List Char
  eofbit : Bool
  failbit : Bool
  deriving DecidableEq

/-- Stream state test `good()`: no state bit is set. -/
def IStream.good (s : IStream) : Bool := !s.eofbit && !s.failbit

/-- Stream over a string: `std::istringstream iss(s)`. -/
def istringstream (s : List Char) : IStream := ⟨s, false, false⟩

/-- Stream over a file: `std::ifstream f(path)`; `none` is a file that cannot
be opened, which sets `failbit`. -/
def ifstream (content : Option (List Char)) : IStream :=
  match content with
  | none => ⟨[], false, true⟩
  | some s => ⟨s, false, false⟩

/-- Character class `::isspace` of the C locale. -/
def isspace (c : Char) : Bool :=
  c == ' ' || c == '\t' || c == '\n' || c == Char.ofNat 11 || c == Char.ofNat 12 || c == '\r'

/-- Call `std::getline(is, str, delim)`.  When the stream is not good the call sets
`failbit` and leaves `str` as it is.  Otherwise `str` is cleared and
characters are moved to it up to the delimiter, which is removed from the
stream and dropped; reaching the end sets `eofbit`, and `failbit` too when
nothing at all was extracted. -/
def getline (is : IStream) (str : List Char) (delim : Char) : IStream × List Char :=
  if is.good then
    let field := is.buf.takeWhile (fun c => c != delim)
    match is.buf.dropWhile (fun c => c != delim) with
    | [] => (⟨[], true, field.isEmpty⟩, field)
    | _ :: rest => (⟨rest, false, false⟩, field)
  else (⟨is.buf, is.eofbit, true⟩, str)

/-- Sentry of a formatted extraction (`operator>>`): fails, setting `failbit`,
on a stream that is not good; otherwise skips leading whitespace, and fails
with `eofbit` and `failbit` when the end is reached while skipping. -/
def sentry (is : IStream) : IStream × Bool :=
  if is.good then
    match is.buf.dropWhile isspace with
    | [] => (⟨[], true, true⟩, false)
    | c :: rest => (⟨c :: rest, false, false⟩, true)
  else (⟨is.buf, is.eofbit, true⟩, false)

/-- Extraction `is >> str` of a string: after the sentry, the characters up
to the next whitespace; `str` is untouched when the sentry fails. -/
def extractString (is : IStream) (str : List Char) : IStream × List Char :=
  match sentry is with
  | (is1, false) => (is1, str)
  | (is1, true) =>
    let tok := is1.buf.takeWhile (fun c => !isspace c)
    let rest := is1.buf.dropWhile (fun c => !isspace c)
    (⟨rest, rest.isEmpty, tok.isEmpty⟩, tok)

/-- Value of a decimal digit character. -/
def digitVal (c : Char) : Nat := c.toNat - 48

/-- Value of a string of decimal digits. -/
def decimal (ds : List Char) : Nat := ds.foldl (fun n c => 10 * n + digitVal c) 0

/-- Extraction `is >> v` of a 64-bit unsigned integer in base ten.  When the
sentry fails `v` is untouched.  Otherwise an optional sign and the digits that
follow are consumed; with no digit the result is `0` and `failbit`, a value
above the maximum gives the maximum and `failbit`, and a minus sign negates
the value modulo `2 ^ 64`.  Reaching the end of the input sets `eofbit`. -/
def extractULL (is : IStream) (v : Nat) : IStream × Nat :=
  match sentry is with
  | (is1, false) => (is1, v)
  | (is1, true) =>
    let negative := is1.buf.head? == some '-'
    let body := if negative || is1.buf.head? == some '+' then is1.buf.tail else is1.buf
    let ds := body.takeWhile Char.isDigit
    let rest := body.dropWhile Char.isDigit
    if ds.isEmpty then (⟨rest, rest.isEmpty, true⟩, 0)
    else if maxU64 < decimal ds then (⟨rest, rest.isEmpty, true⟩, maxU64)
    else (⟨rest, rest.isEmpty, false⟩, if negative then subU64 0 (decimal ds) else decimal ds)

/-! ## The monitor -/

/-- Text of the CPU label: the initial text or a published usage. -/
inductive CpuLabel where
  | calculating
  | usage (percent : Dbl)
  deriving DecidableEq

/-- Text of the memory label: the initial text, or usage with used and total megabytes. -/
inductive MemLabel where
  | calculating
  | usage (percent : Dbl) (usedMB totalMB : ℚ)
  deriving DecidableEq

/-- Text of the disk label: the initial text, or usage with used and total gigabytes. -/
inductive DiskLabel where
  | calculating
  | usage (percent : Dbl) (usedGB totalGB : ℚ)
  deriving DecidableEq

/-- Text of the GPU usage label. -/
inductive GpuUsageLabel where
  | calculating
  | notFound
  | na
  | usage (text : List Char)
  deriving DecidableEq

/-- Text of the GPU temperature label. -/
inductive GpuTempLabel where
  | calculating
  | na
  | temp (text : List Char)
  deriving DecidableEq

/-- State of a `SystemMonitor` object: the five labels and the retained CPU counters. -/
structure SystemMonitor where
  cpuLabel : CpuLabel
  memoryLabel : MemLabel
  diskLabel : DiskLabel
  gpuUsageLabel : GpuUsageLabel
  gpuTempLabel : GpuTempLabel
  prevIdle : Nat
  prevTotal : Nat
  deriving DecidableEq

/-- State built by the constructor, before the first update. -/
def SystemMonitor.fresh : SystemMonitor :=
  ⟨CpuLabel.calculating, MemLabel.calculating, DiskLabel.calculating,
   GpuUsageLabel.calculating, GpuTempLabel.calculating, 0, 0⟩

/-! ### CPU -/

/-- The seven tick counters read from the first line of `/proc/stat`. -/
structure CpuTicks where
  user : Nat
  nice : Nat
  system : Nat
  idle : Nat
  iowait : Nat
  irq : Nat
  softirq : Nat
  deriving DecidableEq

/-- Statement `iss >> cpu >> user >> nice >> system >> idle >> iowait >> irq >> softirq`
on the line; `u` holds the values of the seven uninitialised locals before it. -/
def readTicks (line : List Char) (u : CpuTicks) : IStream × CpuTicks :=
  let r0 := extractString (istringstream line) []
  let r1 := extractULL r0.1 u.user
  let r2 := extractULL r1.1 u.nice
  let r3 := extractULL r2.1 u.system
  let r4 := extractULL r3.1 u.idle
  let r5 := extractULL r4.1 u.iowait
  let r6 := extractULL r5.1 u.irq
  let r7 := extractULL r6.1 u.softirq
  (r7.1, ⟨r1.2, r2.2, r3.2, r4.2, r5.2, r6.2, r7.2⟩)

/-- Ticks held by the seven locals after the extraction, for a pass that finds
`statFile` as the content of `/proc/stat`: the first line is read with
`std::getline` and then parsed. -/
def cpuTicksRead (statFile : Option (List Char)) (u : CpuTicks) : CpuTicks :=
  (readTicks (getline (ifstream statFile) [] '\n').2 u).2

/-- Uninitialised locals that happen to hold zero. -/
def zeroTicks : CpuTicks := ⟨0, 0, 0, 0, 0, 0, 0⟩

/-- Sum of the seven counters as the program computes it (`total`). -/
def CpuTicks.total (t : CpuTicks) : Nat :=
  (t.user + t.nice + t.system + t.idle + t.iowait + t.irq + t.softirq) % U64

/-- Idle time as the program computes it (`idleTime`). -/
def CpuTicks.idleTime (t : CpuTicks) : Nat := (t.idle + t.iowait) % U64

/-- Sum of the seven counters in exact arithmetic (`total` of the specification). -/
def CpuTicks.sum (t : CpuTicks) : Nat :=
  t.user + t.nice + t.system + t.idle + t.iowait + t.irq + t.softirq

/-- Idle total in exact arithmetic (`idleTotal` of the specification). -/
def CpuTicks.idleSum (t : CpuTicks) : Nat := t.idle + t.iowait

/-- The seven locals in the order of the extraction. -/
def CpuTicks.toList (t : CpuTicks) : List Nat :=
  [t.user, t.nice, t.system, t.idle, t.iowait, t.irq, t.softirq]

/-- Value `cpuUsage` computed inside the `if (prevTotal > 0)` block, in exact arithmetic:
the formula of the three statements with no rounding.  The value that binary64 gives is
`cpuUsageDouble`. -/
def cpuUsage (total idleTime prevTotal prevIdle : Nat) : Dbl :=
  let totalDiff : ℚ := (subU64 total prevTotal : Nat)
  let idleDiff : ℚ := (subU64 idleTime prevIdle : Nat)
  Dbl.div (100 * (totalDiff - idleDiff)) totalDiff

/-- Method `updateCPUUsage`, the usage in exact arithmetic; `statFile` is the content of
`/proc/stat` and `u` the initial values of the uninitialised locals. -/
def updateCPUUsage (statFile : Option (List Char)) (u : CpuTicks) (m : SystemMonitor) :
    SystemMonitor :=
  let t := cpuTicksRead statFile u
  let total := t.total
  let idleTime := t.idleTime
  { m with
    cpuLabel :=
      if 0 < m.prevTotal then CpuLabel.usage (cpuUsage total idleTime m.prevTotal m.prevIdle)
      else m.cpuLabel
    prevIdle := idleTime
    prevTotal := total }

/-- Value `cpuUsage` computed inside the `if (prevTotal > 0)` block, in binary64.  Each
of `totalDiff` and `idleDiff` is an unsigned 64-bit difference converted to `double`, which
rounds it; then the subtraction, the multiplication by `100.0` and the division are carried
out in this order, each one rounded. -/
def cpuUsageDouble (total idleTime prevTotal prevIdle : Nat) : Dbl :=
  let totalDiff : ℚ := roundDouble (subU64 total prevTotal : Nat)
  let idleDiff : ℚ := roundDouble (subU64 idleTime prevIdle : Nat)
  Dbl.round (Dbl.div (roundDouble (100 * roundDouble (totalDiff - idleDiff))) totalDiff)

/-- Method `updateCPUUsage`, the usage in binary64; `statFile` is the content of
`/proc/stat` and `u` the initial values of the uninitialised locals. -/
def updateCPUUsageDouble (statFile : Option (List Char)) (u : CpuTicks) (m : SystemMonitor) :
    SystemMonitor :=
  let t := cpuTicksRead statFile u
  let total := t.total
  let idleTime := t.idleTime
  { m with
    cpuLabel :=
      if 0 < m.prevTotal then
        CpuLabel.usage (cpuUsageDouble total idleTime m.prevTotal m.prevIdle)
      else m.cpuLabel
    prevIdle := idleTime
    prevTotal := total }

/-! ### Memory -/

/-- The fields of `struct statvfs` that the program reads. -/
structure Statvfs where
  f_blocks : Nat
  f_frsize : Nat
  f_bavail : Nat
  deriving DecidableEq

/-- Local `total` of `updateDiskUsage`. -/
def diskTotal (stat : Statvfs) : Nat := mulU64 stat.f_blocks stat.f_frsize

/-- Local `free` of `updateDiskUsage`. -/
def diskFree (stat : Statvfs) : Nat := mulU64 stat.f_bavail stat.f_frsize

/-- Local `used` of `updateDiskUsage`. -/
def diskUsed (stat : Statvfs) : Nat := subU64 (diskTotal stat) (diskFree stat)

/-- Local `diskUsage` of `updateDiskUsage`. -/
def diskUsage (stat : Statvfs) : Dbl :=
  Dbl.div (100 * (diskUsed stat : ℚ)) (diskTotal stat : ℚ)

/-- Method `updateDiskUsage`; `none` is a failed `statvfs` call. -/
def updateDiskUsage (res : Option Statvfs) (m : SystemMonitor) : SystemMonitor :=
  match res with
  | none => m
  | some stat =>
    let usedGB : ℚ := (diskUsed stat : ℚ) / (1024 * 1024 * 1024)
    let totalGB : ℚ := (diskTotal stat : ℚ) / (1024 * 1024 * 1024)
    { m with diskLabel := DiskLabel.usage (diskUsage stat) usedGB totalGB }

/-! ### GPU -/

/-- Exceptions thrown by the string library. -/
inductive Exn where
  | out_of_range
  deriving DecidableEq

/-- The constant `std::string::npos`. -/
def npos : Nat := 2 ^ 64 - 1

/-- Member `s.find(c)`: index of the first occurrence, or `npos`. -/
def find (s : List Char) (c : Char) : Nat := if c ∈ s then s.indexOf c else npos

/-- Member `s.erase(pos, n)`: throws `std::out_of_range` when `pos > s.size()`. -/
def erase (s : List Char) (pos n : Nat) : Except Exn (List Char) :=
  if s.length < pos then Except.error Exn.out_of_range
  else Except.ok (s.take pos ++ s.drop (pos + n))

/-- Idiom `s.erase(std::remove_if(s.begin(), s.end(), ::isspace), s.end())`. -/
def removeSpaces (s : List Char) : List Char := s.filter (fun c => !isspace c)

/-- Member `s.c_str()` read as a C string: the characters before the first NUL. -/
def c_str (s : List Char) : List Char := s.takeWhile (fun c => c != Char.ofNat 0)

/-- Number of characters that a call `fgets(buffer, sizeof(buffer), pipe)` reads into the
128-byte buffer: at most 127, and none after a newline. -/
def fgetsLen (pipe : List Char) : Nat :=
  min 127 ((pipe.takeWhile (fun c => c != '\n')).length + 1)

/-- Loop `while (fgets(buffer, sizeof(buffer), pipe) != nullptr) result += buffer;` on the
characters that the command still has to deliver: each chunk is appended as a C string,
and what follows a NUL in a chunk is lost. -/
def readPipe (pipe : List Char) (result : List Char) : List Char :=
  if _h : pipe = [] then result
  else readPipe (pipe.drop (fgetsLen pipe)) (result ++ c_str (pipe.take (fgetsLen pipe)))
termination_by pipe.length
decreasing_by
  have hpos : 0 < pipe.length := List.length_pos.mpr (by assumption)
  have hk : 0 < fgetsLen pipe := by
    unfold fgetsLen
    omega
  rw [List.length_drop]
  omega

/-- The two `std::getline` calls on `result`: the first skips the title line, the second
reads the data line into the same variable `line`. -/
def gpuDataLine (result : List Char) : List Char :=
  let r1 := getline (istringstream result) [] '\n'
  let r2 := getline r1.1 r1.2 '\n'
  r2.2

/-- Rest of `updateGPUInfo` once `line` is read: the line is cut at commas into `gpuUsage`
and `gpuTemp`, both are cleaned, and the labels are set. -/
def gpuShowLine (line : List Char) (m : SystemMonitor) : Except Exn SystemMonitor :=
  let f1 := getline (istringstream line) [] ','
  let f2 := getline f1.1 [] ','
  let gpuUsage := removeSpaces f1.2
  match erase gpuUsage (find gpuUsage '%') 1 with
  | Except.error e => Except.error e
  | Except.ok gpuUsage =>
    let gpuTemp := removeSpaces f2.2
    if !gpuUsage.isEmpty && !gpuTemp.isEmpty then
      Except.ok { m with gpuUsageLabel := GpuUsageLabel.usage (c_str gpuUsage),
                         gpuTempLabel := GpuTempLabel.temp (c_str gpuTemp) }
    else
      Except.ok { m with gpuUsageLabel := GpuUsageLabel.na, gpuTempLabel := GpuTempLabel.na }

/-- Method `updateGPUInfo`; `pipe` is the output of the query command, `none` when
`popen` fails.  The output is accumulated in `result` by the `fgets` loop and then parsed. -/
def updateGPUInfo (pipe : Option (List Char)) (m : SystemMonitor) : Except Exn SystemMonitor :=
  match pipe with
  | none =>
    Except.ok { m with gpuUsageLabel := GpuUsageLabel.notFound, gpuTempLabel := GpuTempLabel.na }
  | some output => gpuShowLine (gpuDataLine (readPipe output [])) m

/-- Both GPU readings are reported as not available. -/
def gpuNA (m : SystemMonitor) : SystemMonitor :=
  { m with gpuUsageLabel := GpuUsageLabel.na, gpuTempLabel := GpuTempLabel.na }

/-- Both GPU readings are published with the given texts. -/
def gpuPublished (usage temp : List Char) (m : SystemMonitor) : SystemMonitor :=
  { m with gpuUsageLabel := GpuUsageLabel.usage usage, gpuTempLabel := GpuTempLabel.temp temp }

/-- First comma-separated field of a line. -/
def field1 (line : List Char) : List Char := line.takeWhile (fun c => c != ',')

/-- Second comma-separated field of a line (empty when the line has no comma). -/
def field2 (line : List Char) : List Char :=
  ((line.dropWhile (fun c => c != ',')).drop 1).takeWhile (fun c => c != ',')

/-! ## Properties -/

/-! ### Machine arithmetic -/

theorem subU64_of_le {a b : Nat} (hba : b ≤ a) (ha : a < 2 ^ 64) : subU64 a b = a - b := by
  unfold subU64 U64
  omega

theorem subU64_self (t : Nat) : subU64 t t = 0 := by
  unfold subU64 U64
  omega

theorem total_eq_sum {t : CpuTicks} (h : t.sum < 2 ^ 64) : t.total = t.sum := by
  unfold CpuTicks.total CpuTicks.sum U64 at *
  omega

theorem idleSum_le_sum (t : CpuTicks) : t.idleSum ≤ t.sum := by
  unfold CpuTicks.idleSum CpuTicks.sum
  omega

theorem idleTime_eq_idleSum {t : CpuTicks} (h : t.idleSum < 2 ^ 64) :
    t.idleTime = t.idleSum := by
  unfold CpuTicks.idleTime CpuTicks.idleSum U64 at *
  omega

/-! ### Lists split by a predicate -/

theorem takeWhile_append_stop {p : Char → Bool} (l r : List Char)
    (hl : ∀ c ∈ l, p c = true) (hr : ∀ x ∈ r.head?, p x = false) :
    (l ++ r).takeWhile p = l := by
  induction l with
  | nil =>
    cases r with
    | nil => rfl
    | cons x r => simp [List.takeWhile, hr x (by simp)]
  | cons a l ih =>
    have ha : p a = true := hl a (List.mem_cons_self a l)
    rw [List.cons_append, List.takeWhile_cons, ha, if_pos rfl,
      ih (fun c hc => hl c (List.mem_cons_of_mem a hc))]

theorem dropWhile_append_stop {p : Char → Bool} (l r : List Char)
    (hl : ∀ c ∈ l, p c = true) (hr : ∀ x ∈ r.head?, p x = false) :
    (l ++ r).dropWhile p = r := by
  induction l with
  | nil =>
    cases r with
    | nil => rfl
    | cons x r => simp [List.dropWhile, hr x (by simp)]
  | cons a l ih =>
    have ha : p a = true := hl a (List.mem_cons_self a l)
    rw [List.cons_append, List.dropWhile_cons, ha, if_pos rfl]
    exact ih (fun c hc => hl c (List.mem_cons_of_mem a hc))

theorem takeWhile_all {p : Char → Bool} (l : List Char) (hl : ∀ c ∈ l, p c = true) :
    l.takeWhile p = l := by
  have := takeWhile_append_stop l [] hl (by simp)
  simpa using this

theorem dropWhile_all {p : Char → Bool} (l : List Char) (hl : ∀ c ∈ l, p c = true) :
    l.dropWhile p = [] := by
  have := dropWhile_append_stop l [] hl (by simp)
  simpa using this

theorem ne_delim_of_not_mem {d : Char} {l : List Char} (h : d ∉ l) :
    ∀ c ∈ l, (c != d) = true := by
  intro c hc
  simp only [bne_iff_ne, ne_eq]
  rintro rfl
  exact h hc

/-! ### Character classes -/

theorem isspace_of_isDigit {c : Char} (h : c.isDigit = true) : isspace c = false := by
  have hv : 48 ≤ c.val ∧ c.val ≤ 57 := by
    simpa [Char.isDigit] using h
  simp only [isspace, Bool.or_eq_false_iff, beq_eq_false_iff_ne, ne_eq]
  refine ⟨⟨⟨⟨⟨?_, ?_⟩, ?_⟩, ?_⟩, ?_⟩, ?_⟩ <;>
  · rintro rfl
    revert hv
    decide

theorem ne_of_isDigit {c d : Char} (h : c.isDigit = true) (hd : d.isDigit = false) : c ≠ d := by
  rintro rfl
  rw [hd] at h
  cases h

theorem ne_of_isspace {c d : Char} (h : isspace c = true) (hd : isspace d = false) : c ≠ d := by
  rintro rfl
  rw [hd] at h
  cases h

theorem removeSpaces_spaces (w : List Char) (h : ∀ c ∈ w, isspace c = true) :
    removeSpaces w = [] := by
  unfold removeSpaces
  rw [List.filter_eq_nil_iff]
  intro c hc
  simp [h c hc]

theorem removeSpaces_solid (w : List Char) (h : ∀ c ∈ w, isspace c = false) :
    removeSpaces w = w := by
  unfold removeSpaces
  rw [List.filter_eq_self]
  intro c hc
  simp [h c hc]

theorem removeSpaces_append (a b : List Char) :
    removeSpaces (a ++ b) = removeSpaces a ++ removeSpaces b := by
  unfold removeSpaces
  exact List.filter_append a b

/-! ### The function `getline` -/

theorem getline_delim (l r str : List Char) (d : Char) (h : d ∉ l) :
    getline ⟨l ++ d :: r, false, false⟩ str d = (⟨r, false, false⟩, l) := by
  have h1 := takeWhile_append_stop (p := fun c => c != d) l (d :: r) (ne_delim_of_not_mem h)
    (by simp)
  have h2 := dropWhile_append_stop (p := fun c => c != d) l (d :: r) (ne_delim_of_not_mem h)
    (by simp)
  simp only [getline, IStream.good, Bool.not_false, Bool.and_self, if_true, h1, h2]

theorem getline_not_good (is : IStream) (str : List Char) (d : Char) (h : is.good = false) :
    getline is str d = (⟨is.buf, is.eofbit, true⟩, str) := by
  simp [getline, h]

/-- The field read by `getline` from a good stream is the text before the first delimiter. -/
theorem getline_field (b str : List Char) (d : Char) :
    (getline ⟨b, false, false⟩ str d).2 = b.takeWhile (fun c => c != d) := by
  simp only [getline, IStream.good, Bool.not_false, Bool.and_self, if_true]
  split <;> rfl

/-! ### Formatted extraction -/

theorem roundHalfEven_intCast (n : ℤ) : roundHalfEven (n : ℚ) = n := by
  unfold roundHalfEven
  simp

theorem floor_le_roundHalfEven (x : ℚ) : ⌊x⌋ ≤ roundHalfEven x := by
  unfold roundHalfEven
  split_ifs <;> omega

theorem roundHalfEven_le_floor_add_one (x : ℚ) : roundHalfEven x ≤ ⌊x⌋ + 1 := by
  unfold roundHalfEven
  split_ifs <;> omega

theorem roundHalfEven_le {x : ℚ} {m : ℤ} (h : x ≤ m) : roundHalfEven x ≤ m := by
  rcases (Int.floor_le x).lt_or_eq with hlt | heq
  · have h1 : (⌊x⌋ : ℚ) < m := lt_of_lt_of_le hlt h
    have h2 : ⌊x⌋ < m := by exact_mod_cast h1
    have := roundHalfEven_le_floor_add_one x
    omega
  · rw [← heq, roundHalfEven_intCast]
    have h1 : (⌊x⌋ : ℚ) ≤ m := by rw [heq]; exact h
    exact_mod_cast h1

theorem le_roundHalfEven {x : ℚ} {m : ℤ} (h : (m : ℚ) ≤ x) : m ≤ roundHalfEven x :=
  le_trans (Int.le_floor.mpr h) (floor_le_roundHalfEven x)

theorem roundHalfEven_mono {x y : ℚ} (h : x ≤ y) : roundHalfEven x ≤ roundHalfEven y := by
  rcases (Int.floor_mono h).lt_or_eq with hlt | heq
  · have h1 := roundHalfEven_le_floor_add_one x
    have h2 := floor_le_roundHalfEven y
    omega
  · unfold roundHalfEven
    rw [← heq]
    split_ifs <;> first | omega | (exfalso; linarith)

/-- The binary exponent of a positive rational between two consecutive powers of two. -/
theorem log_eq_of_bounds {q : ℚ} {e : ℤ} (h1 : (2 : ℚ) ^ e ≤ q) (h2 : q < (2 : ℚ) ^ (e + 1)) :
    Int.log 2 q = e := by
  have hq : 0 < q := lt_of_lt_of_le (zpow_pos (by norm_num) e) h1
  have a : e ≤ Int.log 2 q :=
    (Int.zpow_le_iff_le_log (by norm_num) hq).mp (by exact_mod_cast h1)
  have b : Int.log 2 q < e + 1 :=
    (Int.lt_zpow_iff_log_lt (by norm_num) hq).mp (by exact_mod_cast h2)
  omega

theorem roundDouble_of_bounds {q : ℚ} {e : ℤ} (h1 : (2 : ℚ) ^ e ≤ q)
    (h2 : q < (2 : ℚ) ^ (e + 1)) :
    roundDouble q = roundHalfEven (q / (2 : ℚ) ^ (e - 52)) * (2 : ℚ) ^ (e - 52) := by
  have hq : 0 < q := lt_of_lt_of_le (zpow_pos (by norm_num) e) h1
  unfold roundDouble
  rw [if_neg hq.ne', abs_of_pos hq, log_eq_of_bounds h1 h2]

theorem roundDouble_zero : roundDouble 0 = 0 := by
  unfold roundDouble
  rw [if_pos rfl]

/-- The scaled significand of a positive rational lies between `2 ^ 52` and `2 ^ 53`. -/
theorem significand_bounds {q : ℚ} (hq : 0 < q) :
    ((2 ^ 52 : ℤ) : ℚ) ≤ q / (2 : ℚ) ^ (Int.log 2 q - 52) ∧
    q / (2 : ℚ) ^ (Int.log 2 q - 52) ≤ ((2 ^ 53 : ℤ) : ℚ) := by
  have hs : (0 : ℚ) < (2 : ℚ) ^ (Int.log 2 q - 52) := zpow_pos (by norm_num) _
  have h1 : ((2 : ℕ) : ℚ) ^ Int.log 2 q ≤ q := Int.zpow_log_le_self (by norm_num) hq
  have h2 : q < ((2 : ℕ) : ℚ) ^ (Int.log 2 q + 1) := Int.lt_zpow_succ_log_self (by norm_num) q
  have e1 : (2 : ℚ) ^ Int.log 2 q = (2 : ℚ) ^ (52 : ℤ) * (2 : ℚ) ^ (Int.log 2 q - 52) := by
    rw [← zpow_add₀ (by norm_num : (2 : ℚ) ≠ 0)]
    congr 1
    ring
  have e2 : (2 : ℚ) ^ (Int.log 2 q + 1) = (2 : ℚ) ^ (53 : ℤ) * (2 : ℚ) ^ (Int.log 2 q - 52) := by
    rw [← zpow_add₀ (by norm_num : (2 : ℚ) ≠ 0)]
    congr 1
    ring
  push_cast at h1 h2 ⊢
  constructor
  · rw [le_div_iff₀ hs]
    calc (2 : ℚ) ^ 52 * 2 ^ (Int.log 2 q - 52) = (2 : ℚ) ^ Int.log 2 q := by
          rw [e1]; norm_num
      _ ≤ q := h1
  · rw [div_le_iff₀ hs]
    calc q ≤ (2 : ℚ) ^ (Int.log 2 q + 1) := h2.le
      _ = 2 ^ 53 * 2 ^ (Int.log 2 q - 52) := by rw [e2]; norm_num

theorem roundDouble_pos_eq {q : ℚ} (hq : 0 < q) :
    roundDouble q
      = roundHalfEven (q / (2 : ℚ) ^ (Int.log 2 q - 52)) * (2 : ℚ) ^ (Int.log 2 q - 52) := by
  unfold roundDouble
  rw [if_neg hq.ne', abs_of_pos hq]

theorem roundDouble_nonneg {q : ℚ} (hq : 0 ≤ q) : 0 ≤ roundDouble q := by
  rcases hq.lt_or_eq with hpos | h0
  · rw [roundDouble_pos_eq hpos]
    have hb := (significand_bounds hpos).1
    have h1 : (2 ^ 52 : ℤ) ≤ roundHalfEven (q / (2 : ℚ) ^ (Int.log 2 q - 52)) :=
      le_roundHalfEven hb
    have h2 : (0 : ℚ) ≤ (roundHalfEven (q / (2 : ℚ) ^ (Int.log 2 q - 52)) : ℚ) := by
      have : (0 : ℤ) ≤ roundHalfEven (q / (2 : ℚ) ^ (Int.log 2 q - 52)) := by
        have : (0 : ℤ) ≤ 2 ^ 52 := by norm_num
        omega
      exact_mod_cast this
    exact mul_nonneg h2 (zpow_pos (by norm_num) _).le
  · rw [← h0, roundDouble_zero]

theorem roundDouble_pos {q : ℚ} (hq : 0 < q) : 0 < roundDouble q := by
  rw [roundDouble_pos_eq hq]
  have h1 : (2 ^ 52 : ℤ) ≤ roundHalfEven (q / (2 : ℚ) ^ (Int.log 2 q - 52)) :=
    le_roundHalfEven (significand_bounds hq).1
  have h2 : (0 : ℚ) < (roundHalfEven (q / (2 : ℚ) ^ (Int.log 2 q - 52)) : ℚ) := by
    have : (0 : ℤ) < roundHalfEven (q / (2 : ℚ) ^ (Int.log 2 q - 52)) :=
      lt_of_lt_of_le (by norm_num) h1
    exact_mod_cast this
  exact mul_pos h2 (zpow_pos (by norm_num) _)

theorem roundDouble_neg {q : ℚ} (hq : q < 0) : roundDouble q < 0 := by
  have hpos : 0 < -q := neg_pos.mpr hq
  have hs : (0 : ℚ) < (2 : ℚ) ^ (Int.log 2 (-q) - 52) := zpow_pos (by norm_num) _
  unfold roundDouble
  rw [if_neg hq.ne, abs_of_neg hq]
  have hb := (significand_bounds hpos).1
  have hle : q / (2 : ℚ) ^ (Int.log 2 (-q) - 52) ≤ ((-(2 ^ 52) : ℤ) : ℚ) := by
    rw [neg_div] at hb
    push_cast at hb ⊢
    linarith
  have h1 : roundHalfEven (q / (2 : ℚ) ^ (Int.log 2 (-q) - 52)) ≤ -(2 ^ 52) :=
    roundHalfEven_le hle
  have h2 : (roundHalfEven (q / (2 : ℚ) ^ (Int.log 2 (-q) - 52)) : ℚ) < 0 := by
    have : roundHalfEven (q / (2 : ℚ) ^ (Int.log 2 (-q) - 52)) < 0 :=
      lt_of_le_of_lt h1 (by norm_num)
    exact_mod_cast this
  exact mul_neg_of_neg_of_pos h2 hs

/-- Rounding to binary64 is monotone on the positive rationals. -/
theorem roundDouble_mono {p q : ℚ} (hp : 0 < p) (h : p ≤ q) : roundDouble p ≤ roundDouble q := by
  have hq : 0 < q := lt_of_lt_of_le hp h
  rw [roundDouble_pos_eq hp, roundDouble_pos_eq hq]
  have hlog : Int.log 2 p ≤ Int.log 2 q := Int.log_mono_right hp h
  rcases hlog.lt_or_eq with hlt | heq
  · have hbp := (significand_bounds hp).2
    have hbq := (significand_bounds hq).1
    have h1 : roundHalfEven (p / (2 : ℚ) ^ (Int.log 2 p - 52)) ≤ (2 ^ 53 : ℤ) :=
      roundHalfEven_le hbp
    have h2 : (2 ^ 52 : ℤ) ≤ roundHalfEven (q / (2 : ℚ) ^ (Int.log 2 q - 52)) :=
      le_roundHalfEven hbq
    have h1q : (roundHalfEven (p / (2 : ℚ) ^ (Int.log 2 p - 52)) : ℚ) ≤ (2 : ℚ) ^ (53 : ℤ) := by
      have : (roundHalfEven (p / (2 : ℚ) ^ (Int.log 2 p - 52)) : ℚ) ≤ ((2 ^ 53 : ℤ) : ℚ) := by
        exact_mod_cast h1
      have e : ((2 ^ 53 : ℤ) : ℚ) = (2 : ℚ) ^ (53 : ℤ) := by norm_num
      rw [← e]
      exact this
    have h2q : (2 : ℚ) ^ (52 : ℤ) ≤ (roundHalfEven (q / (2 : ℚ) ^ (Int.log 2 q - 52)) : ℚ) := by
      have : ((2 ^ 52 : ℤ) : ℚ) ≤ (roundHalfEven (q / (2 : ℚ) ^ (Int.log 2 q - 52)) : ℚ) := by
        exact_mod_cast h2
      have e : ((2 ^ 52 : ℤ) : ℚ) = (2 : ℚ) ^ (52 : ℤ) := by norm_num
      rw [← e]
      exact this
    have hsp : (0 : ℚ) < (2 : ℚ) ^ (Int.log 2 p - 52) := zpow_pos (by norm_num) _
    have hsq : (0 : ℚ) < (2 : ℚ) ^ (Int.log 2 q - 52) := zpow_pos (by norm_num) _
    calc (roundHalfEven (p / (2 : ℚ) ^ (Int.log 2 p - 52)) : ℚ) * (2 : ℚ) ^ (Int.log 2 p - 52)
        ≤ (2 : ℚ) ^ (53 : ℤ) * (2 : ℚ) ^ (Int.log 2 p - 52) :=
          mul_le_mul_of_nonneg_right h1q hsp.le
      _ = (2 : ℚ) ^ (Int.log 2 p + 1) := by
          rw [← zpow_add₀ (by norm_num : (2 : ℚ) ≠ 0)]
          congr 1
          ring
      _ ≤ (2 : ℚ) ^ (Int.log 2 q) := zpow_le_zpow_right₀ (by norm_num) (by omega)
      _ = (2 : ℚ) ^ (52 : ℤ) * (2 : ℚ) ^ (Int.log 2 q - 52) := by
          rw [← zpow_add₀ (by norm_num : (2 : ℚ) ≠ 0)]
          congr 1
          ring
      _ ≤ (roundHalfEven (q / (2 : ℚ) ^ (Int.log 2 q - 52)) : ℚ) * (2 : ℚ) ^ (Int.log 2 q - 52) :=
          mul_le_mul_of_nonneg_right h2q hsq.le
  · rw [heq]
    have hs : (0 : ℚ) < (2 : ℚ) ^ (Int.log 2 q - 52) := zpow_pos (by norm_num) _
    have hdiv : p / (2 : ℚ) ^ (Int.log 2 q - 52) ≤ q / (2 : ℚ) ^ (Int.log 2 q - 52) :=
      div_le_div_of_nonneg_right h hs.le
    have hr := roundHalfEven_mono hdiv
    have hrq : (roundHalfEven (p / (2 : ℚ) ^ (Int.log 2 q - 52)) : ℚ)
        ≤ (roundHalfEven (q / (2 : ℚ) ^ (Int.log 2 q - 52)) : ℚ) := by exact_mod_cast hr
    exact mul_le_mul_of_nonneg_right hrq hs.le

/-- A natural number up to `2 ^ 53` is a binary64 value. -/
theorem roundDouble_natCast {n : ℕ} (hn : n ≤ 2 ^ 53) : roundDouble (n : ℚ) = n := by
  rcases Nat.eq_zero_or_pos n with rfl | hpos
  · simp [roundDouble_zero]
  · have hq : (0 : ℚ) < n := by exact_mod_cast hpos
    rw [roundDouble_pos_eq hq, Int.log_natCast]
    have hlog : Nat.log 2 n ≤ 53 := by
      have := Nat.log_mono_right (b := 2) hn
      rwa [Nat.log_pow (by norm_num)] at this
    rcases Nat.lt_or_ge (Nat.log 2 n) 53 with hlt | hge
    · have hk : ((Nat.log 2 n : ℕ) : ℤ) - 52 = -((52 - Nat.log 2 n : ℕ) : ℤ) := by omega
      rw [hk, zpow_neg, zpow_natCast]
      have e : (n : ℚ) / ((2 : ℚ) ^ (52 - Nat.log 2 n))⁻¹
          = (((n * 2 ^ (52 - Nat.log 2 n) : ℕ) : ℤ) : ℚ) := by
        push_cast
        rw [div_inv_eq_mul]
      rw [e, roundHalfEven_intCast]
      push_cast
      field_simp
    · have h53 : Nat.log 2 n = 53 := by omega
      have hn2 : n = 2 ^ 53 := by
        have := Nat.pow_log_le_self 2 hpos.ne'
        rw [h53] at this
        omega
      rw [h53, hn2]
      have e : (((2 ^ 53 : ℕ) : ℚ)) / (2 : ℚ) ^ (((53 : ℕ) : ℤ) - 52) = ((2 ^ 52 : ℤ) : ℚ) := by
        norm_num
      rw [e, roundHalfEven_intCast]
      norm_num


theorem roundDouble_mono_nonneg {p q : ℚ} (hp : 0 ≤ p) (h : p ≤ q) :
    roundDouble p ≤ roundDouble q := by
  rcases hp.lt_or_eq with hpos | h0
  · exact roundDouble_mono hpos h
  · rw [← h0, roundDouble_zero]
    exact roundDouble_nonneg (le_trans hp h)

theorem roundDouble_le_hundred {q : ℚ} (h0 : 0 ≤ q) (h : q ≤ 100) : roundDouble q ≤ 100 := by
  have h1 := roundDouble_mono_nonneg h0 h
  have h2 : roundDouble ((100 : ℕ) : ℚ) = ((100 : ℕ) : ℚ) := roundDouble_natCast (by norm_num)
  have h3 : roundDouble (100 : ℚ) = 100 := by exact_mod_cast h2
  rw [h3] at h1
  exact h1

/-- The nearest integer to a value above the midpoint of `f` and `f + 1`. -/
theorem roundHalfEven_up {x : ℚ} {f : ℤ} (h1 : (f : ℚ) + 1 / 2 < x) (h2 : x < (f : ℚ) + 1) :
    roundHalfEven x = f + 1 := by
  have hf : ⌊x⌋ = f := Int.floor_eq_iff.mpr ⟨by linarith, h2⟩
  unfold roundHalfEven
  rw [hf, if_neg (by linarith), if_pos (by linarith)]

/-- The nearest integer to the midpoint of an odd `f` and `f + 1` is the even `f + 1`. -/
theorem roundHalfEven_tie_odd {x : ℚ} {f : ℤ} (h : x = (f : ℚ) + 1 / 2) (hodd : f % 2 = 1) :
    roundHalfEven x = f + 1 := by
  have hf : ⌊x⌋ = f := Int.floor_eq_iff.mpr ⟨by linarith, by linarith⟩
  unfold roundHalfEven
  rw [hf, if_neg (by linarith), if_neg (by linarith), if_neg (by omega)]

theorem Dbl.round_fin (q : ℚ) : Dbl.round (Dbl.fin q) = Dbl.fin (roundDouble q) := rfl

/-! ### CPU usage -/

theorem updateCPUUsage_cpuLabel (f : Option (List Char)) (u : CpuTicks) (m : SystemMonitor) :
    (updateCPUUsage f u m).cpuLabel =
      if 0 < m.prevTotal then
        CpuLabel.usage (cpuUsage (cpuTicksRead f u).total (cpuTicksRead f u).idleTime
          m.prevTotal m.prevIdle)
      else m.cpuLabel := rfl

theorem updateCPUUsage_prevTotal (f : Option (List Char)) (u : CpuTicks) (m : SystemMonitor) :
    (updateCPUUsage f u m).prevTotal = (cpuTicksRead f u).total := rfl

theorem updateCPUUsage_prevIdle (f : Option (List Char)) (u : CpuTicks) (m : SystemMonitor) :
    (updateCPUUsage f u m).prevIdle = (cpuTicksRead f u).idleTime := rfl

/-- Usage computed from two readings none of whose differences wraps around. -/
theorem cpuUsage_exact {tA tB iA iB : Nat} (ht : tA < tB) (htB : tB < 2 ^ 64)
    (hi : iA ≤ iB) (hiB : iB < 2 ^ 64) :
    cpuUsage tB iB tA iA =
      Dbl.fin (100 * (((tB : ℚ) - tA) - ((iB : ℚ) - iA)) / ((tB : ℚ) - tA)) := by
  unfold cpuUsage
  rw [subU64_of_le ht.le htB, subU64_of_le hi hiB]
  have hne : ((tB - tA : Nat) : ℚ) ≠ 0 := by
    have : 0 < tB - tA := Nat.sub_pos_of_lt ht
    exact_mod_cast this.ne'
  simp only [Dbl.div, if_neg hne]
  rw [Nat.cast_sub ht.le, Nat.cast_sub hi]

/-- Usage computed when the total did not move: the division by zero is carried out. -/
theorem cpuUsage_zero_diff (t iB iA : Nat) :
    cpuUsage t iB t iA = if subU64 iB iA = 0 then Dbl.nan else Dbl.negInf := by
  unfold cpuUsage
  rw [subU64_self]
  by_cases h : subU64 iB iA = 0
  · rw [if_pos h, h]
    simp [Dbl.div]
  · rw [if_neg h]
    have hq : (0 : ℚ) < (subU64 iB iA : ℚ) := by exact_mod_cast Nat.pos_of_ne_zero h
    have h1 : (100 * ((0 : ℚ) - (subU64 iB iA : ℚ))) ≠ 0 := by linarith
    have h2 : ¬ (0 : ℚ) < 100 * ((0 : ℚ) - (subU64 iB iA : ℚ)) := by linarith
    simp only [Dbl.div, Nat.cast_zero, if_true]
    rw [if_neg h1, if_neg h2]

/-- C1, as amended: when a pass that read ticks `A` with `total(A) > 0` is followed by
a pass that reads ticks `B` with `total(B) > total(A)`, the sums not overflowing 64 bits
and `idleTotal(B) ≥ idleTotal(A)`, the second pass reports, in exact arithmetic,
`100 * ((total(B) - total(A)) - (idleTotal(B) - idleTotal(A))) / (total(B) - total(A))`,
whatever the state `m` left by earlier passes. -/
theorem cpu_rate_pairwise (fA fB : Option (List Char)) (uA uB : CpuTicks) (m : SystemMonitor)
    (hA : 0 < (cpuTicksRead fA uA).sum)
    (hAB : (cpuTicksRead fA uA).sum < (cpuTicksRead fB uB).sum)
    (hB : (cpuTicksRead fB uB).sum < 2 ^ 64)
    (hidle : (cpuTicksRead fA uA).idleSum ≤ (cpuTicksRead fB uB).idleSum) :
    (updateCPUUsage fB uB (updateCPUUsage fA uA m)).cpuLabel =
      CpuLabel.usage (Dbl.fin
        (100 * ((((cpuTicksRead fB uB).sum : ℚ) - ((cpuTicksRead fA uA).sum : ℚ))
              - (((cpuTicksRead fB uB).idleSum : ℚ) - ((cpuTicksRead fA uA).idleSum : ℚ)))
          / (((cpuTicksRead fB uB).sum : ℚ) - ((cpuTicksRead fA uA).sum : ℚ)))) := by
  have hAs : (cpuTicksRead fA uA).sum < 2 ^ 64 := lt_trans hAB hB
  have hAi := lt_of_le_of_lt (idleSum_le_sum (cpuTicksRead fA uA)) hAs
  have hBi := lt_of_le_of_lt (idleSum_le_sum (cpuTicksRead fB uB)) hB
  rw [updateCPUUsage_cpuLabel, updateCPUUsage_prevTotal, updateCPUUsage_prevIdle,
    total_eq_sum hAs, total_eq_sum hB, idleTime_eq_idleSum hAi, idleTime_eq_idleSum hBi,
    if_pos hA]
  rw [cpuUsage_exact hAB hB hidle hBi]

/-- Example for C1 as amended: the total advances by 1000 and the idle total by 800,
and the usage reported is 20. -/
theorem cpu_rate_pairwise_witness :
    (updateCPUUsage (some "cpu 300 0 0 900 0 0 0\n".toList) zeroTicks
      (updateCPUUsage (some "cpu 100 0 0 100 0 0 0\n".toList) zeroTicks
        SystemMonitor.fresh)).cpuLabel = CpuLabel.usage (Dbl.fin 20) := by
  have h := cpu_rate_pairwise (some "cpu 100 0 0 100 0 0 0\n".toList)
    (some "cpu 300 0 0 900 0 0 0\n".toList) zeroTicks zeroTicks SystemMonitor.fresh
    (by decide) (by decide) (by decide) (by decide)
  rw [h]
  have e1 : cpuTicksRead (some "cpu 300 0 0 900 0 0 0\n".toList) zeroTicks
      = ⟨300, 0, 0, 900, 0, 0, 0⟩ := by decide
  have e2 : cpuTicksRead (some "cpu 100 0 0 100 0 0 0\n".toList) zeroTicks
      = ⟨100, 0, 0, 100, 0, 0, 0⟩ := by decide
  rw [e1, e2]
  norm_num [CpuTicks.sum, CpuTicks.idleSum]

/-- C1 fails as stated: the first pass reads total 15 with idle total 5, the second
total 20 with idle total 0.  The total advanced and nothing overflows, the formula of
the claim gives 200, but the unsigned difference of the idle totals wraps around and the
usage reported is `20 * (10 - 2 ^ 64)`. -/
theorem cpu_rate_pairwise_counterexample :
    0 < (cpuTicksRead (some "cpu 10 0 0 5 0 0 0\n".toList) zeroTicks).sum ∧
    (cpuTicksRead (some "cpu 10 0 0 5 0 0 0\n".toList) zeroTicks).sum
      < (cpuTicksRead (some "cpu 20 0 0 0 0 0 0\n".toList) zeroTicks).sum ∧
    (cpuTicksRead (some "cpu 20 0 0 0 0 0 0\n".toList) zeroTicks).sum < 2 ^ 64 ∧
    (updateCPUUsage (some "cpu 20 0 0 0 0 0 0\n".toList) zeroTicks
      (updateCPUUsage (some "cpu 10 0 0 5 0 0 0\n".toList) zeroTicks
        SystemMonitor.fresh)).cpuLabel
      = CpuLabel.usage (Dbl.fin (20 * (10 - 2 ^ 64))) ∧
    (updateCPUUsage (some "cpu 20 0 0 0 0 0 0\n".toList) zeroTicks
      (updateCPUUsage (some "cpu 10 0 0 5 0 0 0\n".toList) zeroTicks
        SystemMonitor.fresh)).cpuLabel
      ≠ CpuLabel.usage (Dbl.fin
        (100 * ((((cpuTicksRead (some "cpu 20 0 0 0 0 0 0\n".toList) zeroTicks).sum : ℚ)
              - ((cpuTicksRead (some "cpu 10 0 0 5 0 0 0\n".toList) zeroTicks).sum : ℚ))
            - (((cpuTicksRead (some "cpu 20 0 0 0 0 0 0\n".toList) zeroTicks).idleSum : ℚ)
              - ((cpuTicksRead (some "cpu 10 0 0 5 0 0 0\n".toList) zeroTicks).idleSum : ℚ)))
          / (((cpuTicksRead (some "cpu 20 0 0 0 0 0 0\n".toList) zeroTicks).sum : ℚ)
              - ((cpuTicksRead (some "cpu 10 0 0 5 0 0 0\n".toList) zeroTicks).sum : ℚ)))) := by
  have e1 : cpuTicksRead (some "cpu 10 0 0 5 0 0 0\n".toList) zeroTicks
      = ⟨10, 0, 0, 5, 0, 0, 0⟩ := by decide
  have e2 : cpuTicksRead (some "cpu 20 0 0 0 0 0 0\n".toList) zeroTicks
      = ⟨20, 0, 0, 0, 0, 0, 0⟩ := by decide
  have h1 : subU64 (CpuTicks.total ⟨20, 0, 0, 0, 0, 0, 0⟩)
      (CpuTicks.total ⟨10, 0, 0, 5, 0, 0, 0⟩) = 5 := by decide
  have h2 : subU64 (CpuTicks.idleTime ⟨20, 0, 0, 0, 0, 0, 0⟩)
      (CpuTicks.idleTime ⟨10, 0, 0, 5, 0, 0, 0⟩) = 2 ^ 64 - 5 := by decide
  have hl : (updateCPUUsage (some "cpu 20 0 0 0 0 0 0\n".toList) zeroTicks
      (updateCPUUsage (some "cpu 10 0 0 5 0 0 0\n".toList) zeroTicks
        SystemMonitor.fresh)).cpuLabel
      = CpuLabel.usage (Dbl.fin (20 * (10 - 2 ^ 64))) := by
    rw [updateCPUUsage_cpuLabel, updateCPUUsage_prevTotal, updateCPUUsage_prevIdle, e1, e2,
      if_pos (by decide)]
    unfold cpuUsage
    rw [h1, h2]
    norm_num [Dbl.div]
  refine ⟨by decide, by decide, by decide, hl, ?_⟩
  rw [hl, e1, e2]
  intro h
  injection h with h
  injection h with h
  norm_num [CpuTicks.sum, CpuTicks.idleSum] at h

/-- C2, as amended: a first pass (`prevTotal = 0`) publishes nothing, the CPU label keeps
its text, and it leaves `prevIdle = (idle + iowait) mod 2 ^ 64` and `prevTotal` = the sum
of the seven fields modulo `2 ^ 64`; these are the plain sums when the plain sums are
below `2 ^ 64`. -/
theorem cpu_first_pass (f : Option (List Char)) (u : CpuTicks) (m : SystemMonitor)
    (h0 : m.prevTotal = 0) :
    (updateCPUUsage f u m).cpuLabel = m.cpuLabel ∧
    (updateCPUUsage f u m).prevIdle
      = ((cpuTicksRead f u).idle + (cpuTicksRead f u).iowait) % 2 ^ 64 ∧
    (updateCPUUsage f u m).prevTotal
      = ((cpuTicksRead f u).user + (cpuTicksRead f u).nice + (cpuTicksRead f u).system
          + (cpuTicksRead f u).idle + (cpuTicksRead f u).iowait + (cpuTicksRead f u).irq
          + (cpuTicksRead f u).softirq) % 2 ^ 64 ∧
    ((cpuTicksRead f u).idleSum < 2 ^ 64 →
      (updateCPUUsage f u m).prevIdle = (cpuTicksRead f u).idleSum) ∧
    ((cpuTicksRead f u).sum < 2 ^ 64 →
      (updateCPUUsage f u m).prevTotal = (cpuTicksRead f u).sum) := by
  refine ⟨?_, rfl, rfl, ?_, ?_⟩
  · rw [updateCPUUsage_cpuLabel, h0]
    rfl
  · intro h
    rw [updateCPUUsage_prevIdle, idleTime_eq_idleSum h]
  · intro h
    rw [updateCPUUsage_prevTotal, total_eq_sum h]

/-- Example for C2 as amended, on the fresh monitor: the label still reads "Calculating...",
and the counters of the line are retained. -/
theorem cpu_first_pass_witness :
    (updateCPUUsage (some "cpu 100 0 0 100 0 0 0\n".toList) zeroTicks
      SystemMonitor.fresh).cpuLabel = CpuLabel.calculating ∧
    (updateCPUUsage (some "cpu 100 0 0 100 0 0 0\n".toList) zeroTicks
      SystemMonitor.fresh).prevIdle = 100 ∧
    (updateCPUUsage (some "cpu 100 0 0 100 0 0 0\n".toList) zeroTicks
      SystemMonitor.fresh).prevTotal = 200 := by
  have h := cpu_first_pass (some "cpu 100 0 0 100 0 0 0\n".toList) zeroTicks
    SystemMonitor.fresh rfl
  have e : cpuTicksRead (some "cpu 100 0 0 100 0 0 0\n".toList) zeroTicks
      = ⟨100, 0, 0, 100, 0, 0, 0⟩ := by decide
  rw [e] at h
  exact ⟨h.1, h.2.1, h.2.2.1⟩

/-- C2 fails as stated: on the fresh monitor, a line whose first two fields are `2 ^ 63`
has seven fields of sum `2 ^ 64`, and the pass leaves `prevTotal = 0`. -/
theorem cpu_first_pass_counterexample :
    SystemMonitor.fresh.prevIdle = 0 ∧ SystemMonitor.fresh.prevTotal = 0 ∧
    (cpuTicksRead (some "cpu 9223372036854775808 9223372036854775808 0 0 0 0 0\n".toList)
      zeroTicks) = ⟨9223372036854775808, 9223372036854775808, 0, 0, 0, 0, 0⟩ ∧
    (cpuTicksRead (some "cpu 9223372036854775808 9223372036854775808 0 0 0 0 0\n".toList)
      zeroTicks).sum = 2 ^ 64 ∧
    (updateCPUUsage (some "cpu 9223372036854775808 9223372036854775808 0 0 0 0 0\n".toList)
      zeroTicks SystemMonitor.fresh).prevTotal = 0 ∧
    (updateCPUUsage (some "cpu 9223372036854775808 9223372036854775808 0 0 0 0 0\n".toList)
      zeroTicks SystemMonitor.fresh).prevTotal ≠
      (cpuTicksRead (some "cpu 9223372036854775808 9223372036854775808 0 0 0 0 0\n".toList)
        zeroTicks).sum := by
  refine ⟨rfl, rfl, by decide, by decide, by decide, by decide⟩

/-- C4, as amended: with `prevTotal > 0` and a pass whose tick total equals `prevTotal`,
the division by `totalDiff = 0` is carried out in floating point and its result is
published: NaN when the (wrapped) idle difference is 0 too, minus infinity otherwise.
The retained counters are updated as in every pass. -/
theorem cpu_zero_total_diff (f : Option (List Char)) (u : CpuTicks) (m : SystemMonitor)
    (hprev : 0 < m.prevTotal) (htot : (cpuTicksRead f u).total = m.prevTotal) :
    (updateCPUUsage f u m).cpuLabel =
      CpuLabel.usage
        (if subU64 (cpuTicksRead f u).idleTime m.prevIdle = 0 then Dbl.nan else Dbl.negInf) ∧
    (updateCPUUsage f u m).prevIdle = (cpuTicksRead f u).idleTime ∧
    (updateCPUUsage f u m).prevTotal = (cpuTicksRead f u).total := by
  refine ⟨?_, rfl, rfl⟩
  rw [updateCPUUsage_cpuLabel, if_pos hprev, htot, cpuUsage_zero_diff]

/-- Example for C4 as amended: the same line read twice publishes NaN. -/
theorem cpu_zero_total_diff_witness :
    (updateCPUUsage (some "cpu 100 0 0 100 0 0 0\n".toList) zeroTicks
      (updateCPUUsage (some "cpu 100 0 0 100 0 0 0\n".toList) zeroTicks
        SystemMonitor.fresh)).cpuLabel = CpuLabel.usage Dbl.nan := by
  have h := (cpu_zero_total_diff (some "cpu 100 0 0 100 0 0 0\n".toList) zeroTicks
    (updateCPUUsage (some "cpu 100 0 0 100 0 0 0\n".toList) zeroTicks SystemMonitor.fresh)
    (by decide) (by decide)).1
  rw [h, if_pos (by decide)]

/-- C4 fails as stated: the monitor has `prevTotal = 200 > 0` and its label still reads
"Calculating..."; the next pass reads the total 200 again with a larger idle total, and
the label receives a usage, minus infinity. -/
theorem cpu_zero_total_diff_counterexample :
    (updateCPUUsage (some "cpu 100 0 0 100 0 0 0\n".toList) zeroTicks
      SystemMonitor.fresh).prevTotal = 200 ∧
    (updateCPUUsage (some "cpu 100 0 0 100 0 0 0\n".toList) zeroTicks
      SystemMonitor.fresh).cpuLabel = CpuLabel.calculating ∧
    (cpuTicksRead (some "cpu 50 0 0 150 0 0 0\n".toList) zeroTicks).total = 200 ∧
    (updateCPUUsage (some "cpu 50 0 0 150 0 0 0\n".toList) zeroTicks
      (updateCPUUsage (some "cpu 100 0 0 100 0 0 0\n".toList) zeroTicks
        SystemMonitor.fresh)).cpuLabel = CpuLabel.usage Dbl.negInf ∧
    (updateCPUUsage (some "cpu 50 0 0 150 0 0 0\n".toList) zeroTicks
      (updateCPUUsage (some "cpu 100 0 0 100 0 0 0\n".toList) zeroTicks
        SystemMonitor.fresh)).cpuLabel ≠
      (updateCPUUsage (some "cpu 100 0 0 100 0 0 0\n".toList) zeroTicks
        SystemMonitor.fresh).cpuLabel := by
  have hl : (updateCPUUsage (some "cpu 50 0 0 150 0 0 0\n".toList) zeroTicks
      (updateCPUUsage (some "cpu 100 0 0 100 0 0 0\n".toList) zeroTicks
        SystemMonitor.fresh)).cpuLabel = CpuLabel.usage Dbl.negInf := by
    rw [updateCPUUsage_cpuLabel, if_pos (by decide), updateCPUUsage_prevTotal,
      updateCPUUsage_prevIdle]
    have e1 : (cpuTicksRead (some "cpu 50 0 0 150 0 0 0\n".toList) zeroTicks).total
        = (cpuTicksRead (some "cpu 100 0 0 100 0 0 0\n".toList) zeroTicks).total := by decide
    rw [e1, cpuUsage_zero_diff, if_neg (by decide)]
  have h0 : (updateCPUUsage (some "cpu 100 0 0 100 0 0 0\n".toList) zeroTicks
      SystemMonitor.fresh).cpuLabel = CpuLabel.calculating := by decide
  refine ⟨by decide, h0, by decide, hl, ?_⟩
  rw [hl, h0]
  intro c
  cases c

theorem updateCPUUsageDouble_cpuLabel (f : Option (List Char)) (u : CpuTicks)
    (m : SystemMonitor) :
    (updateCPUUsageDouble f u m).cpuLabel =
      if 0 < m.prevTotal then
        CpuLabel.usage (cpuUsageDouble (cpuTicksRead f u).total (cpuTicksRead f u).idleTime
          m.prevTotal m.prevIdle)
      else m.cpuLabel := rfl

theorem updateCPUUsageDouble_prevTotal (f : Option (List Char)) (u : CpuTicks)
    (m : SystemMonitor) :
    (updateCPUUsageDouble f u m).prevTotal = (cpuTicksRead f u).total := rfl

theorem updateCPUUsageDouble_prevIdle (f : Option (List Char)) (u : CpuTicks)
    (m : SystemMonitor) :
    (updateCPUUsageDouble f u m).prevIdle = (cpuTicksRead f u).idleTime := rfl

/-- Binary64 usage computed from two readings whose differences do not wrap around, when
the total difference and one hundred times the busy difference are at most `2 ^ 53`: the
conversions, the subtraction and the multiplication are exact, and the value is the
rounded quotient. -/
theorem cpuUsageDouble_exact {tA tB iA iB : Nat} (ht : tA < tB) (htB : tB < 2 ^ 64)
    (hi : iA ≤ iB) (hiB : iB < 2 ^ 64) (hle : iB - iA ≤ tB - tA) (hT : tB - tA ≤ 2 ^ 53)
    (hM : 100 * ((tB - tA) - (iB - iA)) ≤ 2 ^ 53) :
    cpuUsageDouble tB iB tA iA =
      Dbl.fin (roundDouble (100 * (((tB : ℚ) - tA) - ((iB : ℚ) - iA)) / ((tB : ℚ) - tA))) := by
  unfold cpuUsageDouble
  rw [subU64_of_le ht.le htB, subU64_of_le hi hiB]
  have hne : ((tB - tA : Nat) : ℚ) ≠ 0 := by
    have : 0 < tB - tA := Nat.sub_pos_of_lt ht
    exact_mod_cast this.ne'
  have e1 : roundDouble ((tB - tA : Nat) : ℚ) = ((tB - tA : Nat) : ℚ) := roundDouble_natCast hT
  have e2 : roundDouble ((iB - iA : Nat) : ℚ) = ((iB - iA : Nat) : ℚ) :=
    roundDouble_natCast (le_trans hle hT)
  have e3 : ((tB - tA : Nat) : ℚ) - ((iB - iA : Nat) : ℚ)
      = (((tB - tA) - (iB - iA) : Nat) : ℚ) := (Nat.cast_sub hle).symm
  have e4 : roundDouble ((((tB - tA) - (iB - iA) : Nat) : ℚ))
      = (((tB - tA) - (iB - iA) : Nat) : ℚ) :=
    roundDouble_natCast (le_trans (Nat.le_mul_of_pos_left _ (by norm_num)) hM)
  have e5 : (100 : ℚ) * (((tB - tA) - (iB - iA) : Nat) : ℚ)
      = ((100 * ((tB - tA) - (iB - iA)) : Nat) : ℚ) := by push_cast; ring
  have e6 : roundDouble (((100 * ((tB - tA) - (iB - iA)) : Nat) : ℚ))
      = ((100 * ((tB - tA) - (iB - iA)) : Nat) : ℚ) := roundDouble_natCast hM
  simp only [e1, e2, e3, e4, e5, e6, Dbl.div, if_neg hne, Dbl.round_fin]
  rw [← e5, ← e3, Nat.cast_sub ht.le, Nat.cast_sub hi]


/-- Binary64 usage computed when the total did not move: the same special values as in
exact arithmetic. -/
theorem cpuUsageDouble_zero_diff (t iB iA : Nat) :
    cpuUsageDouble t iB t iA = if subU64 iB iA = 0 then Dbl.nan else Dbl.negInf := by
  unfold cpuUsageDouble
  rw [subU64_self]
  by_cases h : subU64 iB iA = 0
  · rw [if_pos h, h]
    simp [Dbl.div, Dbl.round, roundDouble_zero]
  · rw [if_neg h]
    have hq : (0 : ℚ) < (subU64 iB iA : ℚ) := by exact_mod_cast Nat.pos_of_ne_zero h
    have h1 := roundDouble_pos hq
    have h2 : roundDouble (0 - roundDouble (subU64 iB iA : ℚ)) < 0 :=
      roundDouble_neg (by linarith)
    have h3 : roundDouble (100 * roundDouble (0 - roundDouble (subU64 iB iA : ℚ))) < 0 :=
      roundDouble_neg (by linarith)
    simp only [Nat.cast_zero, roundDouble_zero, Dbl.div, if_true]
    rw [if_neg h3.ne, if_neg (not_lt.mpr h3.le)]
    rfl

/-- In the range where the conversions, the subtraction and the product are exact, the
binary64 usage is the usage of exact arithmetic rounded once. -/
theorem cpuUsageDouble_eq_round {tA tB iA iB : Nat} (ht : tA < tB) (htB : tB < 2 ^ 64)
    (hi : iA ≤ iB) (hiB : iB < 2 ^ 64) (hle : iB - iA ≤ tB - tA) (hT : tB - tA ≤ 2 ^ 53)
    (hM : 100 * ((tB - tA) - (iB - iA)) ≤ 2 ^ 53) :
    cpuUsageDouble tB iB tA iA = Dbl.round (cpuUsage tB iB tA iA) := by
  rw [cpuUsageDouble_exact ht htB hi hiB hle hT hM, cpuUsage_exact ht htB hi hiB, Dbl.round_fin]

/-- C5, as amended: for two consecutive readings `A` then `B` in which each of the seven
counters is non-decreasing, `totalDiff > 0` and `idleDiff ≤ totalDiff`, the sums not
overflowing 64 bits, and in which moreover `totalDiff ≤ 2 ^ 53` and
`100 * (totalDiff - idleDiff) ≤ 2 ^ 53`, the usage computed in binary64 by
`updateCPUUsage` is the rounded quotient `100 * (totalDiff - idleDiff) / totalDiff`, a
finite value between 0 and 100, and it is the value published whenever a usage is
published (`prevTotal = total(A) > 0`). -/
theorem cpu_usage_bounds (fA fB : Option (List Char)) (uA uB : CpuTicks) (m : SystemMonitor)
    (_huser : (cpuTicksRead fA uA).user ≤ (cpuTicksRead fB uB).user)
    (_hnice : (cpuTicksRead fA uA).nice ≤ (cpuTicksRead fB uB).nice)
    (_hsystem : (cpuTicksRead fA uA).system ≤ (cpuTicksRead fB uB).system)
    (hidle : (cpuTicksRead fA uA).idle ≤ (cpuTicksRead fB uB).idle)
    (hiowait : (cpuTicksRead fA uA).iowait ≤ (cpuTicksRead fB uB).iowait)
    (_hirq : (cpuTicksRead fA uA).irq ≤ (cpuTicksRead fB uB).irq)
    (_hsoftirq : (cpuTicksRead fA uA).softirq ≤ (cpuTicksRead fB uB).softirq)
    (hov : (cpuTicksRead fB uB).sum < 2 ^ 64)
    (htd : (cpuTicksRead fA uA).sum < (cpuTicksRead fB uB).sum)
    (hid : (cpuTicksRead fB uB).idleSum - (cpuTicksRead fA uA).idleSum
      ≤ (cpuTicksRead fB uB).sum - (cpuTicksRead fA uA).sum)
    (hsmall : (cpuTicksRead fB uB).sum - (cpuTicksRead fA uA).sum ≤ 2 ^ 53)
    (hbusy : 100 * (((cpuTicksRead fB uB).sum - (cpuTicksRead fA uA).sum)
      - ((cpuTicksRead fB uB).idleSum - (cpuTicksRead fA uA).idleSum)) ≤ 2 ^ 53) :
    ∃ v : ℚ,
      v = roundDouble
        (100 * ((((cpuTicksRead fB uB).sum : ℚ) - ((cpuTicksRead fA uA).sum : ℚ))
              - (((cpuTicksRead fB uB).idleSum : ℚ) - ((cpuTicksRead fA uA).idleSum : ℚ)))
          / (((cpuTicksRead fB uB).sum : ℚ) - ((cpuTicksRead fA uA).sum : ℚ))) ∧
      cpuUsageDouble (cpuTicksRead fB uB).total (cpuTicksRead fB uB).idleTime
        (updateCPUUsageDouble fA uA m).prevTotal (updateCPUUsageDouble fA uA m).prevIdle
        = Dbl.fin v ∧
      0 ≤ v ∧ v ≤ 100 ∧
      (0 < (updateCPUUsageDouble fA uA m).prevTotal →
        (updateCPUUsageDouble fB uB (updateCPUUsageDouble fA uA m)).cpuLabel
          = CpuLabel.usage (Dbl.fin v)) := by
  have hAs : (cpuTicksRead fA uA).sum < 2 ^ 64 := lt_trans htd hov
  have hAi := lt_of_le_of_lt (idleSum_le_sum (cpuTicksRead fA uA)) hAs
  have hBi := lt_of_le_of_lt (idleSum_le_sum (cpuTicksRead fB uB)) hov
  have hii : (cpuTicksRead fA uA).idleSum ≤ (cpuTicksRead fB uB).idleSum := by
    unfold CpuTicks.idleSum
    omega
  have hcomp := cpuUsageDouble_exact htd hov hii hBi hid hsmall hbusy
  have h1 : ((cpuTicksRead fA uA).sum : ℚ) < (cpuTicksRead fB uB).sum := by exact_mod_cast htd
  have h2 : (((cpuTicksRead fB uB).idleSum - (cpuTicksRead fA uA).idleSum : Nat) : ℚ)
      ≤ (((cpuTicksRead fB uB).sum - (cpuTicksRead fA uA).sum : Nat) : ℚ) := by
    exact_mod_cast hid
  rw [Nat.cast_sub hii, Nat.cast_sub htd.le] at h2
  have h3 : ((cpuTicksRead fA uA).idleSum : ℚ) ≤ (cpuTicksRead fB uB).idleSum := by
    exact_mod_cast hii
  have hq0 : (0 : ℚ) ≤
      100 * ((((cpuTicksRead fB uB).sum : ℚ) - ((cpuTicksRead fA uA).sum : ℚ))
              - (((cpuTicksRead fB uB).idleSum : ℚ) - ((cpuTicksRead fA uA).idleSum : ℚ)))
          / (((cpuTicksRead fB uB).sum : ℚ) - ((cpuTicksRead fA uA).sum : ℚ)) := by
    apply div_nonneg
    · linarith
    · linarith
  have hq100 :
      100 * ((((cpuTicksRead fB uB).sum : ℚ) - ((cpuTicksRead fA uA).sum : ℚ))
              - (((cpuTicksRead fB uB).idleSum : ℚ) - ((cpuTicksRead fA uA).idleSum : ℚ)))
          / (((cpuTicksRead fB uB).sum : ℚ) - ((cpuTicksRead fA uA).sum : ℚ)) ≤ 100 := by
    rw [div_le_iff₀ (by linarith)]
    linarith
  refine ⟨_, rfl, ?_, roundDouble_nonneg hq0, roundDouble_le_hundred hq0 hq100, ?_⟩
  · rw [updateCPUUsageDouble_prevTotal, updateCPUUsageDouble_prevIdle, total_eq_sum hAs,
      total_eq_sum hov, idleTime_eq_idleSum hAi, idleTime_eq_idleSum hBi]
    exact hcomp
  · intro hp
    rw [updateCPUUsageDouble_cpuLabel, if_pos hp, updateCPUUsageDouble_prevTotal,
      updateCPUUsageDouble_prevIdle, total_eq_sum hAs, total_eq_sum hov,
      idleTime_eq_idleSum hAi, idleTime_eq_idleSum hBi, hcomp]

/-- Example for C5 as amended: from ticks (100, idle 100) to ticks (300, idle 900) the
total advances by 1000 and the idle total by 800, and the usage published is 20, between
0 and 100. -/
theorem cpu_usage_bounds_witness :
    (updateCPUUsageDouble (some "cpu 300 0 0 900 0 0 0\n".toList) zeroTicks
      (updateCPUUsageDouble (some "cpu 100 0 0 100 0 0 0\n".toList) zeroTicks
        SystemMonitor.fresh)).cpuLabel = CpuLabel.usage (Dbl.fin 20) ∧
    (0 : ℚ) ≤ 20 ∧ (20 : ℚ) ≤ 100 := by
  obtain ⟨v, hv, _, h0, h100, hlab⟩ :=
    cpu_usage_bounds (some "cpu 100 0 0 100 0 0 0\n".toList)
      (some "cpu 300 0 0 900 0 0 0\n".toList) zeroTicks zeroTicks SystemMonitor.fresh
      (by decide) (by decide) (by decide) (by decide) (by decide) (by decide) (by decide)
      (by decide) (by decide) (by decide) (by decide) (by decide)
  have e1 : cpuTicksRead (some "cpu 300 0 0 900 0 0 0\n".toList) zeroTicks
      = ⟨300, 0, 0, 900, 0, 0, 0⟩ := by decide
  have e2 : cpuTicksRead (some "cpu 100 0 0 100 0 0 0\n".toList) zeroTicks
      = ⟨100, 0, 0, 100, 0, 0, 0⟩ := by decide
  have h20 : roundDouble ((20 : ℕ) : ℚ) = ((20 : ℕ) : ℚ) := roundDouble_natCast (by norm_num)
  have hv20 : v = 20 := by
    rw [hv, e1, e2]
    norm_num [CpuTicks.sum, CpuTicks.idleSum]
    exact_mod_cast h20
  rw [hv20] at hlab h0 h100
  exact ⟨hlab (by decide), h0, h100⟩

/-- C5 fails as stated: the first pass reads the single tick `user = 1`, the second
`user = 486474803281328`.  Every counter is non-decreasing, nothing overflows,
`totalDiff = 486474803281327 > 0` and `idleDiff = 0 ≤ totalDiff`.  In binary64 the product
`100.0 * totalDiff = 48647480328132700` falls halfway between two doubles and is rounded
up to `48647480328132704`, and the quotient by `totalDiff` is rounded to the double next
above 100: the usage computed and published is `100 + 2 ^ (-46)`, greater than 100. -/
theorem cpu_usage_bounds_counterexample :
    cpuTicksRead (some "cpu 1 0 0 0 0 0 0\n".toList) zeroTicks = ⟨1, 0, 0, 0, 0, 0, 0⟩ ∧
    cpuTicksRead (some "cpu 486474803281328 0 0 0 0 0 0\n".toList) zeroTicks
      = ⟨486474803281328, 0, 0, 0, 0, 0, 0⟩ ∧
    (cpuTicksRead (some "cpu 486474803281328 0 0 0 0 0 0\n".toList) zeroTicks).sum < 2 ^ 64 ∧
    (cpuTicksRead (some "cpu 1 0 0 0 0 0 0\n".toList) zeroTicks).sum
      < (cpuTicksRead (some "cpu 486474803281328 0 0 0 0 0 0\n".toList) zeroTicks).sum ∧
    (cpuTicksRead (some "cpu 486474803281328 0 0 0 0 0 0\n".toList) zeroTicks).idleSum
        - (cpuTicksRead (some "cpu 1 0 0 0 0 0 0\n".toList) zeroTicks).idleSum
      ≤ (cpuTicksRead (some "cpu 486474803281328 0 0 0 0 0 0\n".toList) zeroTicks).sum
        - (cpuTicksRead (some "cpu 1 0 0 0 0 0 0\n".toList) zeroTicks).sum ∧
    (updateCPUUsageDouble (some "cpu 486474803281328 0 0 0 0 0 0\n".toList) zeroTicks
      (updateCPUUsageDouble (some "cpu 1 0 0 0 0 0 0\n".toList) zeroTicks
        SystemMonitor.fresh)).cpuLabel
      = CpuLabel.usage (Dbl.fin (100 + 1 / 2 ^ 46)) ∧
    (100 : ℚ) < 100 + 1 / 2 ^ 46 := by
  have e1 : cpuTicksRead (some "cpu 1 0 0 0 0 0 0\n".toList) zeroTicks
      = ⟨1, 0, 0, 0, 0, 0, 0⟩ := by decide
  have e2 : cpuTicksRead (some "cpu 486474803281328 0 0 0 0 0 0\n".toList) zeroTicks
      = ⟨486474803281328, 0, 0, 0, 0, 0, 0⟩ := by decide
  have h1 : subU64 (CpuTicks.total ⟨486474803281328, 0, 0, 0, 0, 0, 0⟩)
      (CpuTicks.total ⟨1, 0, 0, 0, 0, 0, 0⟩) = 486474803281327 := by decide
  have h2 : subU64 (CpuTicks.idleTime ⟨486474803281328, 0, 0, 0, 0, 0, 0⟩)
      (CpuTicks.idleTime ⟨1, 0, 0, 0, 0, 0, 0⟩) = 0 := by decide
  have r1 : roundDouble ((486474803281327 : ℕ) : ℚ) = ((486474803281327 : ℕ) : ℚ) :=
    roundDouble_natCast (by norm_num)
  have r2 : roundDouble (100 * (486474803281327 : ℚ)) = 48647480328132704 := by
    have b1 : (2 : ℚ) ^ (55 : ℤ) ≤ 100 * (486474803281327 : ℚ) := by norm_num
    have b2 : 100 * (486474803281327 : ℚ) < (2 : ℚ) ^ ((55 : ℤ) + 1) := by norm_num
    rw [roundDouble_of_bounds b1 b2,
      roundHalfEven_tie_odd (f := 6080935041016587) (by norm_num) (by decide)]
    norm_num
  have r3 : roundDouble ((48647480328132704 : ℚ) / 486474803281327) = 100 + 1 / 2 ^ 46 := by
    have b1 : (2 : ℚ) ^ (6 : ℤ) ≤ (48647480328132704 : ℚ) / 486474803281327 := by norm_num
    have b2 : (48647480328132704 : ℚ) / 486474803281327 < (2 : ℚ) ^ ((6 : ℤ) + 1) := by
      norm_num
    rw [roundDouble_of_bounds b1 b2,
      roundHalfEven_up (f := 7036874417766400) (by norm_num) (by norm_num)]
    norm_num
  have hl : (updateCPUUsageDouble (some "cpu 486474803281328 0 0 0 0 0 0\n".toList) zeroTicks
      (updateCPUUsageDouble (some "cpu 1 0 0 0 0 0 0\n".toList) zeroTicks
        SystemMonitor.fresh)).cpuLabel
      = CpuLabel.usage (Dbl.fin (100 + 1 / 2 ^ 46)) := by
    rw [updateCPUUsageDouble_cpuLabel, updateCPUUsageDouble_prevTotal,
      updateCPUUsageDouble_prevIdle, e1, e2, if_pos (by decide)]
    unfold cpuUsageDouble
    rw [h1, h2]
    have r1q : roundDouble (486474803281327 : ℚ) = 486474803281327 := by exact_mod_cast r1
    simp only [Nat.cast_ofNat, Nat.cast_zero, roundDouble_zero, sub_zero, r1q, r2, Dbl.div]
    rw [if_neg (by norm_num), Dbl.round_fin, r3]
  refine ⟨e1, e2, ?_, ?_, ?_, hl, by norm_num⟩
  · rw [e2]
    decide
  · rw [e1, e2]
    decide
  · rw [e1, e2]
    decide

/-! ### CPU tick parsing -/

/-- C8, as amended: when `statvfs` succeeds with `blocks * fragSize = 0`, `updateDiskUsage`
carries out the floating-point division by the zero total and publishes its result: NaN
when `used` is 0 too, plus infinity otherwise, next to a total of 0 gigabytes. -/
theorem disk_zero_total (stat : Statvfs) (m : SystemMonitor)
    (hzero : stat.f_blocks * stat.f_frsize = 0) :
    (updateDiskUsage (some stat) m).diskLabel =
      DiskLabel.usage (if diskUsed stat = 0 then Dbl.nan else Dbl.posInf)
        ((diskUsed stat : ℚ) / (1024 * 1024 * 1024)) 0 := by
  have ht : diskTotal stat = 0 := by
    show (stat.f_blocks * stat.f_frsize) % U64 = 0
    rw [hzero]
    rfl
  show DiskLabel.usage (diskUsage stat) _ _ = _
  unfold diskUsage
  rw [ht]
  by_cases hu : diskUsed stat = 0
  · rw [hu]
    simp [Dbl.div]
  · have hq : (0 : ℚ) < (diskUsed stat : ℚ) := by exact_mod_cast Nat.pos_of_ne_zero hu
    have h1 : (100 * (diskUsed stat : ℚ)) ≠ 0 := by linarith
    have h2 : (0 : ℚ) < 100 * (diskUsed stat : ℚ) := by linarith
    simp only [Dbl.div, Nat.cast_zero, if_true, if_neg h1, if_pos h2, if_neg hu, zero_div]

/-- Example for C8 as amended: a filesystem of zero blocks publishes NaN. -/
theorem disk_zero_total_witness :
    (updateDiskUsage (some ⟨0, 4096, 0⟩) SystemMonitor.fresh).diskLabel =
      DiskLabel.usage Dbl.nan 0 0 := by
  have h := disk_zero_total ⟨0, 4096, 0⟩ SystemMonitor.fresh (by decide)
  rw [h, if_pos (by decide)]
  have e : diskUsed ⟨0, 4096, 0⟩ = 0 := by decide
  rw [e]
  norm_num

/-- C8 fails as stated: with a total size of 0 the disk label of the fresh monitor does
not keep its text, it receives the usage NaN. -/
theorem disk_zero_total_counterexample :
    diskTotal ⟨0, 4096, 0⟩ = 0 ∧
    SystemMonitor.fresh.diskLabel = DiskLabel.calculating ∧
    (updateDiskUsage (some ⟨0, 4096, 0⟩) SystemMonitor.fresh).diskLabel
      = DiskLabel.usage Dbl.nan 0 0 ∧
    (updateDiskUsage (some ⟨0, 4096, 0⟩) SystemMonitor.fresh).diskLabel
      ≠ SystemMonitor.fresh.diskLabel := by
  have e : diskUsed ⟨0, 4096, 0⟩ = 0 := by decide
  have et : diskTotal ⟨0, 4096, 0⟩ = 0 := by decide
  have h : (updateDiskUsage (some ⟨0, 4096, 0⟩) SystemMonitor.fresh).diskLabel
      = DiskLabel.usage Dbl.nan 0 0 := by
    show DiskLabel.usage (diskUsage _) _ _ = _
    unfold diskUsage
    rw [e, et]
    norm_num [Dbl.div]
  refine ⟨et, rfl, h, ?_⟩
  rw [h]
  intro c
  cases c

/-! ### GPU readings -/

theorem readPipe_nil (result : List Char) : readPipe [] result = result := by
  rw [readPipe, dif_pos rfl]

theorem readPipe_step (pipe result : List Char) (h : pipe ≠ []) :
    readPipe pipe result =
      readPipe (pipe.drop (fgetsLen pipe)) (result ++ c_str (pipe.take (fgetsLen pipe))) := by
  rw [readPipe, dif_neg h]

theorem c_str_clean (s : List Char) (h : Char.ofNat 0 ∉ s) : c_str s = s :=
  takeWhile_all s (ne_delim_of_not_mem h)

theorem fgetsLen_pos (pipe : List Char) : 0 < fgetsLen pipe := by
  unfold fgetsLen
  omega

/-- The loop appends to what `result` holds already. -/
theorem readPipe_append (pipe result : List Char) :
    readPipe pipe result = result ++ readPipe pipe [] := by
  obtain ⟨n, hn⟩ : ∃ n, pipe.length = n := ⟨_, rfl⟩
  induction n using Nat.strong_induction_on generalizing pipe result with
  | _ n ih =>
    subst hn
    by_cases h : pipe = []
    · subst h
      rw [readPipe_nil, readPipe_nil, List.append_nil]
    · have hlt : (pipe.drop (fgetsLen pipe)).length < pipe.length := by
        have hpos : 0 < pipe.length := List.length_pos.mpr h
        have hk := fgetsLen_pos pipe
        rw [List.length_drop]
        omega
      rw [readPipe_step pipe result h, readPipe_step pipe [] h,
        ih _ hlt _ (result ++ c_str (pipe.take (fgetsLen pipe))) rfl,
        ih _ hlt _ ([] ++ c_str (pipe.take (fgetsLen pipe))) rfl]
      simp only [List.nil_append, List.append_assoc]

/-- An output without a NUL character is accumulated whole. -/
theorem readPipe_clean (pipe result : List Char) (h0 : Char.ofNat 0 ∉ pipe) :
    readPipe pipe result = result ++ pipe := by
  obtain ⟨n, hn⟩ : ∃ n, pipe.length = n := ⟨_, rfl⟩
  induction n using Nat.strong_induction_on generalizing pipe result with
  | _ n ih =>
    subst hn
    by_cases h : pipe = []
    · subst h
      rw [readPipe_nil, List.append_nil]
    · have hlt : (pipe.drop (fgetsLen pipe)).length < pipe.length := by
        have hpos : 0 < pipe.length := List.length_pos.mpr h
        have hk := fgetsLen_pos pipe
        rw [List.length_drop]
        omega
      have htake : Char.ofNat 0 ∉ pipe.take (fgetsLen pipe) :=
        fun hm => h0 (List.mem_of_mem_take hm)
      have hdrop : Char.ofNat 0 ∉ pipe.drop (fgetsLen pipe) :=
        fun hm => h0 (List.mem_of_mem_drop hm)
      rw [readPipe_step pipe result h, ih _ hlt _ _ hdrop rfl, c_str_clean _ htake,
        List.append_assoc, List.take_append_drop]

/-- A line without a NUL character is accumulated whole, whatever follows it. -/
theorem readPipe_line (l rest result : List Char) (hn : '\n' ∉ l) (h0 : Char.ofNat 0 ∉ l) :
    readPipe (l ++ '\n' :: rest) result = readPipe rest (result ++ l ++ ['\n']) := by
  obtain ⟨n, hlen⟩ : ∃ n, l.length = n := ⟨_, rfl⟩
  induction n using Nat.strong_induction_on generalizing l result with
  | _ n ih =>
    subst hlen
    have hne : l ++ '\n' :: rest ≠ [] := by simp
    have hk : fgetsLen (l ++ '\n' :: rest) = min 127 (l.length + 1) := by
      unfold fgetsLen
      rw [takeWhile_append_stop l ('\n' :: rest) (ne_delim_of_not_mem hn) (by simp)]
    rw [readPipe_step _ _ hne, hk]
    by_cases hshort : l.length + 1 ≤ 127
    · rw [min_eq_right hshort]
      have e : l ++ '\n' :: rest = (l ++ ['\n']) ++ rest := by simp
      have hl : (l ++ ['\n']).length = l.length + 1 := by simp
      rw [e, List.take_left' hl, List.drop_left' hl]
      have h0' : Char.ofNat 0 ∉ l ++ ['\n'] := by
        simp only [List.mem_append, List.mem_singleton, not_or]
        exact ⟨h0, by decide⟩
      rw [c_str_clean _ h0', List.append_assoc]
    · have hlong : 127 ≤ l.length := by omega
      rw [min_eq_left (by omega), List.take_append_of_le_length hlong,
        List.drop_append_of_le_length hlong]
      have htake : Char.ofNat 0 ∉ l.take 127 := fun hm => h0 (List.mem_of_mem_take hm)
      have hlt : (l.drop 127).length < l.length := by
        rw [List.length_drop]
        omega
      rw [c_str_clean _ htake,
        ih _ hlt (l.drop 127) (result ++ l.take 127)
          (fun hm => hn (List.mem_of_mem_drop hm)) (fun hm => h0 (List.mem_of_mem_drop hm)) rfl]
      simp only [List.append_assoc, List.take_append_drop]

/-- The data line of an output made of a title line and a data line. -/
theorem gpuDataLine_eq (header d tail : List Char) (hh : '\n' ∉ header) (hd : '\n' ∉ d)
    (ht : tail = [] ∨ tail.head? = some '\n') :
    gpuDataLine (header ++ '\n' :: (d ++ tail)) = d := by
  unfold gpuDataLine istringstream
  rw [getline_delim header (d ++ tail) [] '\n' hh]
  show (getline ⟨d ++ tail, false, false⟩ header '\n').2 = d
  rw [getline_field]
  apply takeWhile_append_stop d tail (ne_delim_of_not_mem hd)
  intro x hx
  rcases ht with h | h
  · rw [h] at hx
    simp at hx
  · rw [h] at hx
    simp only [Option.mem_def, Option.some.injEq] at hx
    rw [← hx]
    rfl

theorem gpuFields (line : List Char) :
    (getline (istringstream line) [] ',').2 = field1 line ∧
    (getline (getline (istringstream line) [] ',').1 [] ',').2 = field2 line := by
  refine ⟨getline_field line [] ',', ?_⟩
  unfold field2 istringstream
  cases h : line.dropWhile (fun c => c != ',') with
  | nil =>
    have e : (getline ⟨line, false, false⟩ [] ',').1
        = ⟨[], true, (line.takeWhile (fun c => c != ',')).isEmpty⟩ := by
      simp only [getline, IStream.good, Bool.not_false, Bool.and_self, if_true, h]
    rw [e, getline_not_good _ _ _ (by simp [IStream.good])]
    rfl
  | cons x rest =>
    have e : (getline ⟨line, false, false⟩ [] ',').1 = ⟨rest, false, false⟩ := by
      simp only [getline, IStream.good, Bool.not_false, Bool.and_self, if_true, h]
    rw [e, getline_field]
    rfl

theorem erase_find (s : List Char) (c : Char) (h : c ∈ s) :
    erase s (find s c) 1 = Except.ok (s.erase c) := by
  unfold erase find
  rw [if_pos h]
  have hlt : s.indexOf c < s.length := List.indexOf_lt_length.mpr h
  rw [if_neg (by omega)]
  congr 1
  induction s with
  | nil => simp at h
  | cons a s ih =>
    by_cases hac : a = c
    · subst hac
      simp
    · have hc : c ∈ s := by
        rcases List.mem_cons.mp h with e | e
        · exact absurd e.symm hac
        · exact e
      have hne : (a == c) = false := by simpa using hac
      rw [List.indexOf_cons_ne _ hac, List.erase_cons, hne]
      simp only [List.take_succ_cons, List.drop_succ_cons, List.cons_append, Bool.false_eq_true,
        if_false]
      rw [ih hc (List.indexOf_lt_length.mpr hc)]

theorem erase_find_not_mem (s : List Char) (c : Char) (h : c ∉ s) (hs : s.length < npos) :
    erase s (find s c) 1 = Except.error Exn.out_of_range := by
  unfold erase find
  rw [if_neg h, if_pos hs]

/-- Without a `%` in the cleaned first field the call of `erase` throws. -/
theorem gpuShowLine_throws (line : List Char) (m : SystemMonitor)
    (h : '%' ∉ removeSpaces (field1 line)) (hlen : (removeSpaces (field1 line)).length < npos) :
    gpuShowLine line m = Except.error Exn.out_of_range := by
  unfold gpuShowLine
  simp only [(gpuFields line).1, erase_find_not_mem _ _ h hlen]


/-- The text accumulated from an output made of a title line and a data line, both
without a NUL character, has the same title line and data line. -/
theorem gpuDataLine_readPipe (header d tail : List Char) (hh : '\n' ∉ header)
    (hh0 : Char.ofNat 0 ∉ header) (hd : '\n' ∉ d) (hd0 : Char.ofNat 0 ∉ d)
    (ht : tail = [] ∨ tail.head? = some '\n') :
    gpuDataLine (readPipe (header ++ ['\n'] ++ d ++ tail) []) = d := by
  have e1 : header ++ ['\n'] ++ d ++ tail = header ++ '\n' :: (d ++ tail) := by
    simp only [List.append_assoc, List.singleton_append, List.cons_append, List.nil_append]
  rw [e1, readPipe_line header (d ++ tail) [] hh hh0]
  rcases ht with rfl | ht
  · rw [List.append_nil, readPipe_clean d _ hd0]
    have := gpuDataLine_eq header d [] hh hd (Or.inl rfl)
    simpa only [List.nil_append, List.append_assoc, List.singleton_append, List.append_nil]
      using this
  · obtain ⟨rest, rfl⟩ : ∃ rest, tail = '\n' :: rest := by
      cases tail with
      | nil => simp at ht
      | cons c rest =>
        simp only [List.head?_cons, Option.some.injEq] at ht
        exact ⟨rest, by rw [ht]⟩
    rw [readPipe_line d rest _ hd hd0, readPipe_append]
    have := gpuDataLine_eq header d ('\n' :: readPipe rest []) hh hd (Or.inr rfl)
    simpa only [List.nil_append, List.append_assoc, List.singleton_append] using this

theorem not_mem_field1 (c : Char) (line : List Char) (h : c ∉ line) :
    c ∉ (removeSpaces (field1 line)).erase '%' := by
  intro hm
  have h1 := List.mem_of_mem_erase hm
  unfold removeSpaces at h1
  exact h (List.takeWhile_subset _ (List.mem_filter.mp h1).1)

theorem not_mem_field2 (c : Char) (line : List Char) (h : c ∉ line) :
    c ∉ removeSpaces (field2 line) := by
  intro hm
  unfold removeSpaces at hm
  have h1 := List.takeWhile_subset _ (List.mem_filter.mp hm).1
  exact h (List.dropWhile_subset _ (List.mem_of_mem_drop h1))

/-- With a `%` in the cleaned first field and no NUL character in the line, the labels
are set from the two cleaned fields, or to N/A when one of them is empty. -/
theorem gpuShowLine_eq (line : List Char) (m : SystemMonitor)
    (h : '%' ∈ removeSpaces (field1 line)) (h0 : Char.ofNat 0 ∉ line) :
    gpuShowLine line m =
      Except.ok
        (if (removeSpaces (field1 line)).erase '%' ≠ [] ∧ removeSpaces (field2 line) ≠ [] then
          gpuPublished ((removeSpaces (field1 line)).erase '%') (removeSpaces (field2 line)) m
        else gpuNA m) := by
  unfold gpuShowLine
  simp only [(gpuFields line).1, (gpuFields line).2, erase_find _ _ h,
    c_str_clean _ (not_mem_field1 _ line h0), c_str_clean _ (not_mem_field2 _ line h0)]
  by_cases h1 : (removeSpaces (field1 line)).erase '%' = []
  · simp [h1, gpuNA]
  · by_cases h2 : removeSpaces (field2 line) = []
    · simp [h2, gpuNA]
    · simp [h1, h2, gpuPublished]

/-- C9, as amended: for an output made of a title line, any text without a newline and
without a NUL character, followed by a data line `<ws>U<ws>%<ws>,<ws>T<ws>`, where `U` and
`T` are non-empty strings of decimal digits and each `<ws>` is whitespace within the line,
possibly empty, the GPU parsing publishes utilization `U` and temperature `T`. -/
theorem gpu_well_formed (header w1 U w2 w3 w4 T w5 tail : List Char) (m : SystemMonitor)
    (hh : '\n' ∉ header) (hh0 : Char.ofNat 0 ∉ header)
    (hw1 : ∀ c ∈ w1, isspace c = true ∧ c ≠ '\n')
    (hw2 : ∀ c ∈ w2, isspace c = true ∧ c ≠ '\n')
    (hw3 : ∀ c ∈ w3, isspace c = true ∧ c ≠ '\n')
    (hw4 : ∀ c ∈ w4, isspace c = true ∧ c ≠ '\n')
    (hw5 : ∀ c ∈ w5, isspace c = true ∧ c ≠ '\n')
    (hU : U ≠ [] ∧ ∀ c ∈ U, c.isDigit = true)
    (hT : T ≠ [] ∧ ∀ c ∈ T, c.isDigit = true)
    (ht : tail = [] ∨ tail.head? = some '\n') :
    updateGPUInfo
      (some (header ++ ['\n'] ++ (w1 ++ U ++ w2 ++ ['%'] ++ w3 ++ [','] ++ w4 ++ T ++ w5) ++ tail))
      m = Except.ok { m with gpuUsageLabel := GpuUsageLabel.usage U,
                             gpuTempLabel := GpuTempLabel.temp T } := by
  have hd : '\n' ∉ w1 ++ U ++ w2 ++ ['%'] ++ w3 ++ [','] ++ w4 ++ T ++ w5 := by
    simp only [List.mem_append, List.mem_singleton, not_or]
    refine ⟨⟨⟨⟨⟨⟨⟨⟨?_, ?_⟩, ?_⟩, ?_⟩, ?_⟩, ?_⟩, ?_⟩, ?_⟩, ?_⟩
    · exact fun h => (hw1 _ h).2 rfl
    · exact fun h => ne_of_isDigit (hU.2 _ h) (by decide) rfl
    · exact fun h => (hw2 _ h).2 rfl
    · decide
    · exact fun h => (hw3 _ h).2 rfl
    · decide
    · exact fun h => (hw4 _ h).2 rfl
    · exact fun h => ne_of_isDigit (hT.2 _ h) (by decide) rfl
    · exact fun h => (hw5 _ h).2 rfl
  have hd0 : Char.ofNat 0 ∉ w1 ++ U ++ w2 ++ ['%'] ++ w3 ++ [','] ++ w4 ++ T ++ w5 := by
    simp only [List.mem_append, List.mem_singleton, not_or]
    refine ⟨⟨⟨⟨⟨⟨⟨⟨?_, ?_⟩, ?_⟩, ?_⟩, ?_⟩, ?_⟩, ?_⟩, ?_⟩, ?_⟩
    · exact fun h => ne_of_isspace (hw1 _ h).1 (by decide) rfl
    · exact fun h => ne_of_isDigit (hU.2 _ h) (by decide) rfl
    · exact fun h => ne_of_isspace (hw2 _ h).1 (by decide) rfl
    · decide
    · exact fun h => ne_of_isspace (hw3 _ h).1 (by decide) rfl
    · decide
    · exact fun h => ne_of_isspace (hw4 _ h).1 (by decide) rfl
    · exact fun h => ne_of_isDigit (hT.2 _ h) (by decide) rfl
    · exact fun h => ne_of_isspace (hw5 _ h).1 (by decide) rfl
  have hline := gpuDataLine_readPipe header _ tail hh hh0 hd hd0 ht
  have hnc : ∀ c ∈ w1 ++ U ++ w2 ++ ['%'] ++ w3, (c != ',') = true := by
    apply ne_delim_of_not_mem
    simp only [List.mem_append, List.mem_singleton, not_or]
    refine ⟨⟨⟨⟨?_, ?_⟩, ?_⟩, ?_⟩, ?_⟩
    · exact fun h => ne_of_isspace (hw1 _ h).1 (by decide) rfl
    · exact fun h => ne_of_isDigit (hU.2 _ h) (by decide) rfl
    · exact fun h => ne_of_isspace (hw2 _ h).1 (by decide) rfl
    · decide
    · exact fun h => ne_of_isspace (hw3 _ h).1 (by decide) rfl
  have hnc2 : ∀ c ∈ w4 ++ T ++ w5, (c != ',') = true := by
    apply ne_delim_of_not_mem
    simp only [List.mem_append, not_or]
    refine ⟨⟨?_, ?_⟩, ?_⟩
    · exact fun h => ne_of_isspace (hw4 _ h).1 (by decide) rfl
    · exact fun h => ne_of_isDigit (hT.2 _ h) (by decide) rfl
    · exact fun h => ne_of_isspace (hw5 _ h).1 (by decide) rfl
  have hsplit : w1 ++ U ++ w2 ++ ['%'] ++ w3 ++ [','] ++ w4 ++ T ++ w5
      = (w1 ++ U ++ w2 ++ ['%'] ++ w3) ++ ',' :: (w4 ++ T ++ w5) := by
    simp only [List.append_assoc, List.singleton_append, List.cons_append, List.nil_append]
  have hf1 : field1 (w1 ++ U ++ w2 ++ ['%'] ++ w3 ++ [','] ++ w4 ++ T ++ w5)
      = w1 ++ U ++ w2 ++ ['%'] ++ w3 := by
    unfold field1
    rw [hsplit]
    exact takeWhile_append_stop _ _ hnc (by simp)
  have hf2 : field2 (w1 ++ U ++ w2 ++ ['%'] ++ w3 ++ [','] ++ w4 ++ T ++ w5)
      = w4 ++ T ++ w5 := by
    unfold field2
    rw [hsplit, dropWhile_append_stop _ _ hnc (by simp)]
    have := takeWhile_append_stop (p := fun c => c != ',') (w4 ++ T ++ w5) [] hnc2 (by simp)
    simpa using this
  have hr1 : removeSpaces (w1 ++ U ++ w2 ++ ['%'] ++ w3) = U ++ ['%'] := by
    rw [removeSpaces_append, removeSpaces_append, removeSpaces_append, removeSpaces_append,
      removeSpaces_spaces w1 (fun c h => (hw1 c h).1),
      removeSpaces_spaces w2 (fun c h => (hw2 c h).1),
      removeSpaces_spaces w3 (fun c h => (hw3 c h).1),
      removeSpaces_solid U (fun c h => isspace_of_isDigit (hU.2 c h)),
      removeSpaces_solid ['%'] (by decide)]
    simp
  have hr2 : removeSpaces (w4 ++ T ++ w5) = T := by
    rw [removeSpaces_append, removeSpaces_append,
      removeSpaces_spaces w4 (fun c h => (hw4 c h).1),
      removeSpaces_spaces w5 (fun c h => (hw5 c h).1),
      removeSpaces_solid T (fun c h => isspace_of_isDigit (hT.2 c h))]
    simp
  have hpU : '%' ∉ U := fun h => ne_of_isDigit (hU.2 _ h) (by decide) rfl
  have her : (U ++ ['%']).erase '%' = U := by
    rw [List.erase_append_right _ hpU]
    simp
  show gpuShowLine (gpuDataLine _) m = _
  rw [hline, gpuShowLine_eq _ _ (by rw [hf1, hr1]; simp) hd0, hf1, hf2, hr1, hr2, her,
    if_pos ⟨hU.1, hT.1⟩]
  rfl

/-- Example for C9 as amended: the sample output of the query command. -/
theorem gpu_well_formed_witness :
    updateGPUInfo (some "utilization.gpu, temperature.gpu\n45 %, 62\n".toList)
      SystemMonitor.fresh
      = Except.ok { SystemMonitor.fresh with
          gpuUsageLabel := GpuUsageLabel.usage "45".toList,
          gpuTempLabel := GpuTempLabel.temp "62".toList } :=
  gpu_well_formed "utilization.gpu, temperature.gpu".toList [] "45".toList " ".toList []
    " ".toList "62".toList [] "\n".toList SystemMonitor.fresh
    (by decide) (by decide) (by decide) (by decide) (by decide) (by decide) (by decide)
    (by decide) (by decide) (by decide)

/-- C9 fails as stated: the title line `hea<NUL>der` holds no newline and the data line is
`45 %, 62`, but `result += buffer` appends the first chunk as a C string, so that `result`
is `hea45 %, 62` on a single line; the data line read is empty and `erase` throws. -/
theorem gpu_well_formed_counterexample :
    '\n' ∉ "hea".toList ++ Char.ofNat 0 :: "der".toList ∧
    readPipe (("hea".toList ++ Char.ofNat 0 :: "der".toList) ++ "\n45 %, 62\n".toList) []
      = "hea45 %, 62\n".toList ∧
    updateGPUInfo
      (some (("hea".toList ++ Char.ofNat 0 :: "der".toList) ++ "\n45 %, 62\n".toList))
      SystemMonitor.fresh = Except.error Exn.out_of_range ∧
    updateGPUInfo
      (some (("hea".toList ++ Char.ofNat 0 :: "der".toList) ++ "\n45 %, 62\n".toList))
      SystemMonitor.fresh
      ≠ Except.ok { SystemMonitor.fresh with
          gpuUsageLabel := GpuUsageLabel.usage "45".toList,
          gpuTempLabel := GpuTempLabel.temp "62".toList } := by
  have hr : readPipe
      (("hea".toList ++ Char.ofNat 0 :: "der".toList) ++ "\n45 %, 62\n".toList) []
      = "hea45 %, 62\n".toList := by
    rw [readPipe_step _ _ (by decide)]
    have hk : fgetsLen (("hea".toList ++ Char.ofNat 0 :: "der".toList) ++ "\n45 %, 62\n".toList)
        = 8 := by decide
    rw [hk]
    have ht : List.take 8
        (("hea".toList ++ Char.ofNat 0 :: "der".toList) ++ "\n45 %, 62\n".toList)
        = "hea".toList ++ Char.ofNat 0 :: "der\n".toList := by decide
    have hd : List.drop 8
        (("hea".toList ++ Char.ofNat 0 :: "der".toList) ++ "\n45 %, 62\n".toList)
        = "45 %, 62\n".toList := by decide
    rw [ht, hd, readPipe_clean _ _ (by decide)]
    decide
  have he : updateGPUInfo
      (some (("hea".toList ++ Char.ofNat 0 :: "der".toList) ++ "\n45 %, 62\n".toList))
      SystemMonitor.fresh = Except.error Exn.out_of_range := by
    show gpuShowLine (gpuDataLine (readPipe _ [])) _ = _
    rw [hr]
    rfl
  refine ⟨by decide, hr, he, ?_⟩
  rw [he]
  intro c
  cases c

/-- C3, as amended: for an output made of a title line and a data line, neither holding
a NUL character, where the first comma-separated field of the data line contains `%`, the
GPU parsing raises no exception.  Both readings are reported as N/A exactly when the first
field is empty once its whitespace and its first `%` are removed, or the second field is
empty once its whitespace is removed, which is the case of every data line without a
comma.  Otherwise the two cleaned fields are published as they are: the fields are not
parsed as numbers. -/
theorem gpu_malformed (header d tail : List Char) (m : SystemMonitor)
    (hh : '\n' ∉ header) (hh0 : Char.ofNat 0 ∉ header)
    (hd : '\n' ∉ d) (hd0 : Char.ofNat 0 ∉ d)
    (ht : tail = [] ∨ tail.head? = some '\n')
    (hpct : '%' ∈ field1 d) :
    updateGPUInfo (some (header ++ ['\n'] ++ d ++ tail)) m =
      Except.ok
        (if (removeSpaces (field1 d)).erase '%' ≠ [] ∧ removeSpaces (field2 d) ≠ [] then
          gpuPublished ((removeSpaces (field1 d)).erase '%') (removeSpaces (field2 d)) m
        else gpuNA m) ∧
    (',' ∉ d → updateGPUInfo (some (header ++ ['\n'] ++ d ++ tail)) m = Except.ok (gpuNA m)) := by
  have hline := gpuDataLine_readPipe header d tail hh hh0 hd hd0 ht
  have hp : '%' ∈ removeSpaces (field1 d) := by
    unfold removeSpaces
    rw [List.mem_filter]
    exact ⟨hpct, by decide⟩
  have hmain : updateGPUInfo (some (header ++ ['\n'] ++ d ++ tail)) m =
      Except.ok
        (if (removeSpaces (field1 d)).erase '%' ≠ [] ∧ removeSpaces (field2 d) ≠ [] then
          gpuPublished ((removeSpaces (field1 d)).erase '%') (removeSpaces (field2 d)) m
        else gpuNA m) := by
    show gpuShowLine (gpuDataLine (readPipe _ [])) m = _
    rw [hline, gpuShowLine_eq d m hp hd0]
  refine ⟨hmain, ?_⟩
  intro hc
  have hf2 : field2 d = [] := by
    unfold field2
    rw [dropWhile_all d (ne_delim_of_not_mem hc)]
    rfl
  rw [hmain, hf2, if_neg]
  rintro ⟨_, h⟩
  exact h rfl

/-- Example for C3 as amended: a data line without a comma gives N/A for both readings. -/
theorem gpu_malformed_witness :
    updateGPUInfo (some "header\n45 %\n".toList) SystemMonitor.fresh
      = Except.ok (gpuNA SystemMonitor.fresh) :=
  (gpu_malformed "header".toList "45 %".toList "\n".toList SystemMonitor.fresh
    (by decide) (by decide) (by decide) (by decide) (by decide) (by decide)).2 (by decide)

/-- An output made of a title line and a data line, neither holding a NUL character, whose
first field has no `%` makes the parsing throw `std::out_of_range`: `find` returns `npos`
and `erase` is called with it. -/
theorem gpu_throws_without_percent (header d tail : List Char) (m : SystemMonitor)
    (hh : '\n' ∉ header) (hh0 : Char.ofNat 0 ∉ header)
    (hd : '\n' ∉ d) (hd0 : Char.ofNat 0 ∉ d)
    (ht : tail = [] ∨ tail.head? = some '\n')
    (hpct : '%' ∉ field1 d) (hlen : (removeSpaces (field1 d)).length < npos) :
    updateGPUInfo (some (header ++ ['\n'] ++ d ++ tail)) m = Except.error Exn.out_of_range := by
  have hline := gpuDataLine_readPipe header d tail hh hh0 hd hd0 ht
  have hp : '%' ∉ removeSpaces (field1 d) := by
    unfold removeSpaces
    rw [List.mem_filter]
    exact fun h => hpct h.1
  show gpuShowLine (gpuDataLine (readPipe _ [])) m = _
  rw [hline, gpuShowLine_throws d m hp hlen]

/-- An output without a `%` in the first field of its data line, such as the single line
"header\n" or no output at all, makes the parsing throw `std::out_of_range`. -/
theorem gpu_no_percent_throws :
    updateGPUInfo (some "header\n".toList) SystemMonitor.fresh
      = Except.error Exn.out_of_range ∧
    updateGPUInfo (some []) SystemMonitor.fresh = Except.error Exn.out_of_range ∧
    updateGPUInfo (some "header\n45, 62\n".toList) SystemMonitor.fresh
      = Except.error Exn.out_of_range := by
  refine ⟨?_, ?_, ?_⟩
  · show gpuShowLine (gpuDataLine (readPipe _ [])) _ = _
    rw [readPipe_clean _ _ (by decide)]
    rfl
  · show gpuShowLine (gpuDataLine (readPipe _ [])) _ = _
    rw [readPipe_nil]
    rfl
  · show gpuShowLine (gpuDataLine (readPipe _ [])) _ = _
    rw [readPipe_clean _ _ (by decide)]
    rfl

/-- C3 fails as stated: the fields `ab` and `cd` of the data line do not parse as numbers,
and they are published instead of N/A. -/
theorem gpu_malformed_counterexample :
    updateGPUInfo (some "header\nab%,cd\n".toList) SystemMonitor.fresh
      = Except.ok { SystemMonitor.fresh with
          gpuUsageLabel := GpuUsageLabel.usage "ab".toList,
          gpuTempLabel := GpuTempLabel.temp "cd".toList } ∧
    updateGPUInfo (some "header\nab%,cd\n".toList) SystemMonitor.fresh
      ≠ Except.ok (gpuNA SystemMonitor.fresh) := by
  have h : updateGPUInfo (some "header\nab%,cd\n".toList) SystemMonitor.fresh
      = Except.ok { SystemMonitor.fresh with
          gpuUsageLabel := GpuUsageLabel.usage "ab".toList,
          gpuTempLabel := GpuTempLabel.temp "cd".toList } := by
    show gpuShowLine (gpuDataLine (readPipe _ [])) _ = _
    rw [readPipe_clean _ _ (by decide)]
    rfl
  refine ⟨h, ?_⟩
  rw [h]
  intro e
  injection e with e
  exact absurd e (by decide)

end SysMon
